import Mathlib

/-!
Verification of the refpapers core against its specification.

Strings are embedded as `List Char`; Python regular expressions are embedded
as deterministic scanners that implement the leftmost / greedy semantics of
the concrete patterns appearing in the source.  Fallible operations return
`Option` or `Except`.
-/

/-- The regex class `[0-9]`. -/
def isDigitChar (c : Char) : Bool := 48 ≤ c.toNat && c.toNat ≤ 57

/-- The regex class `[a-z]`. -/
def isAzChar (c : Char) : Bool := 97 ≤ c.toNat && c.toNat ≤ 122

/-- The regex class `[a-z-]` used by `RE_BIBTEX` in schema.py. -/
def isLowerOrHyphen (c : Char) : Bool := isAzChar c || c = '-'

/-- Numeric value of an ASCII digit character. -/
def digitVal (c : Char) : Nat := c.toNat - 48

/-- Value of a string of ASCII digits, as computed by Python `int(...)`. -/
def digitsToNat (s : List Char) : Nat :=
  s.foldl (fun acc c => acc * 10 + digitVal c) 0

/-- Fuel-driven decimal rendering helper (fuel bounds the recursion depth). -/
def toDecAux : Nat → Nat → List Char
  | 0, _ => []
  | f + 1, n =>
      if n < 10 then [Char.ofNat (48 + n)]
      else toDecAux f (n / 10) ++ [Char.ofNat (48 + n % 10)]

/-- Decimal rendering of a natural number, as produced by Python `str`. -/
def natStr (n : Nat) : List Char := toDecAux (n + 1) n

/-- Decimal rendering of an integer, as produced by Python `str`. -/
def intStr (i : Int) : List Char :=
  if i < 0 then '-' :: natStr (-i).toNat else natStr i.toNat

/-- `BibtexKey` from schema.py: `(author, year, word)`. -/
structure BibtexKey where
  author : List Char
  year : Int
  word : List Char
deriving DecidableEq, Repr

/-- `BibtexKey.__str__`: the concatenation `{author}{year}{word}`. -/
def BibtexKey.str (k : BibtexKey) : List Char :=
  k.author ++ intStr k.year ++ k.word

/-- One of the outer groups `([a-z-].*)` of `RE_BIBTEX`: nonempty, first char
in `[a-z-]`, and the rest free of newlines (which `.` does not match). -/
def reBibtexSideGroup : List Char → Bool
  | [] => false
  | c :: rest => isLowerOrHyphen c && rest.all (fun ch => ch ≠ '\n')

/-- `[0-9]{4}` anchored at offset `k` of `s`. -/
def digits4At (s : List Char) (k : Nat) : Bool :=
  ((s.drop k).take 4).length = 4 && ((s.drop k).take 4).all isDigitChar

/-- Does `RE_BIBTEX` admit the split with a first group of length `k`? -/
def reBibtexMatchAt (s : List Char) (k : Nat) : Bool :=
  reBibtexSideGroup (s.take k) && digits4At s k && reBibtexSideGroup (s.drop (k + 4))

/-- Greedy search for the split point of `RE_BIBTEX`: the first group `(.*)`
is greedy, so the engine commits to the largest feasible first group. -/
def reBibtexFind (s : List Char) : Nat → Option Nat
  | 0 => none
  | k + 1 => if reBibtexMatchAt s (k + 1) then some (k + 1) else reBibtexFind s k

/-- `BibtexKey.parse` from schema.py.  `None` stands for the raised
`ValueError` when `RE_BIBTEX` does not match. -/
def BibtexKey.parse (s : List Char) : Option BibtexKey :=
  match reBibtexFind s s.length with
  | none => none
  | some k =>
      some ⟨s.take k, Int.ofNat (digitsToNat ((s.drop k).take 4)), s.drop (k + 4)⟩

/-- A "fake year window" inside `word`: 4 consecutive digits followed by a
char of `[a-z-]`, which offers `RE_BIBTEX` an alternative, later split. -/
def fakeYearWindowAt (w : List Char) (i : Nat) : Bool :=
  digits4At w i &&
    (match (w.drop (i + 4)).head? with
     | some c => isLowerOrHyphen c
     | none => false)

/-- `Paper` from schema.py (the fields used by the core). -/
structure Paper where
  path : List Char
  bibtex : BibtexKey
  title : List Char
  authors : List (List Char)
  year : Int
  pub_type : List (List Char)
  tags : List (List Char)
  number : Option (List Char)
  doi : Option (List Char)
  arxiv : Option (List Char)
deriving DecidableEq, Repr

/-- `normalize` from qualitycheck.py (renamed to avoid the Mathlib name): drop spaces, hyphens and colons, then
lowercase. -/
def normalizeText (text : List Char) : List Char :=
  (((text.filter (fun c => c ≠ ' ')).filter (fun c => c ≠ '-')).filter
    (fun c => c ≠ ':')).map Char.toLower

/-- Levenshtein distance, fuel-driven so that it reduces in the kernel; the
fuel `|a| + |b|` dominates the recursion depth. -/
def levF : Nat → List Char → List Char → Nat
  | 0, _, _ => 0
  | _ + 1, [], ys => ys.length
  | _ + 1, xs, [] => xs.length
  | f + 1, x :: xs, y :: ys =>
      if x = y then levF f xs ys
      else 1 + min (min (levF f xs (y :: ys)) (levF f (x :: xs) ys)) (levF f xs ys)

/-- `scaled_lev` from qualitycheck.py.  `Levenshtein.distance` with
`score_cutoff = m` returns `m + 1` whenever the distance exceeds `m`, which
is exactly `min (lev a b) (m + 1)`. -/
def scaled_lev (a b : List Char) : ℚ :=
  (min (levF (a.length + b.length) a b) (max 3 (max a.length b.length / 3) + 1) : ℚ)
    / (((max 3 (max a.length b.length / 3) : Nat) : ℚ) + 1)

/-- Length of the common leading run, as counted by the loop in
`prefix_match`. -/
def commonRunLen {α : Type} [DecidableEq α] : List α → List α → Nat
  | a :: as, b :: bs => if a = b then commonRunLen as bs + 1 else 0
  | _, _ => 0

/-- `prefix_match` from qualitycheck.py; `none` is the `ZeroDivisionError`
raised when the shorter sequence is empty. -/
def prefix_match {α : Type} [DecidableEq α] (a b : List α) : Option ℚ :=
  if min a.length b.length = 0 then none
  else some (1 - (commonRunLen a b : ℚ) / ((min a.length b.length : Nat) : ℚ))

/-- `set_distance` from qualitycheck.py (Jaccard distance, 0 for two empty
sets). -/
def set_distance (a b : Finset (List Char)) : ℚ :=
  if (a ∪ b).card = 0 then 0
  else 1 - ((a ∩ b).card : ℚ) / ((a ∪ b).card : ℚ)

/-- `bibtex_distance` from qualitycheck.py. -/
def bibtex_distance (a b : Paper) : Option ℚ :=
  (prefix_match a.bibtex.str b.bibtex.str).map
    (fun p => min (scaled_lev a.bibtex.str b.bibtex.str) p)

/-- Python `str` applied to an optional string: `None` renders as `"None"`. -/
def pyStrOpt (o : Option (List Char)) : List Char :=
  match o with
  | none => "None".toList
  | some s => s

/-- `arxiv_distance` from qualitycheck.py.  Note the asymmetry: when only
`a.arxiv` is set, the code compares against the literal text `"None"`. -/
def arxiv_distance (a b : Paper) : Option ℚ :=
  match a.arxiv with
  | none =>
      match b.arxiv with
      | none => some 0
      | some _ => some (1 / 2)
  | some sa => prefix_match sa (pyStrOpt b.arxiv)

/-- `doi_distance` from qualitycheck.py (same shape, penalty 1.0). -/
def doi_distance (a b : Paper) : Option ℚ :=
  match a.doi with
  | none =>
      match b.doi with
      | none => some 0
      | some _ => some 1
  | some sa => prefix_match sa (pyStrOpt b.doi)

/-- `author_distance` from qualitycheck.py. -/
def author_distance (a b : Paper) : Option ℚ :=
  let aEt := a.authors.any (fun x => x = "etAl".toList)
  let bEt := b.authors.any (fun x => x = "etAl".toList)
  let aN := a.authors.filter (fun x => ¬ x = "etAl".toList)
  let bN := b.authors.filter (fun x => ¬ x = "etAl".toList)
  (prefix_match aN bN).map (fun p =>
    ((if aEt = bEt then 0 else 1) + 5 * p
      + 2 * set_distance aN.toFinset bN.toFinset) / (1 + 5 + 2))

/-- `year_distance` from qualitycheck.py. -/
def year_distance (a b : Paper) : ℚ :=
  ((min (a.year - b.year).natAbs 10 : Nat) : ℚ) ^ 2 / (10 : ℚ) ^ 2

/-- `title_distance` from qualitycheck.py. -/
def title_distance (a b : Paper) : Option ℚ :=
  (prefix_match a.title b.title).map
    (fun p => min (scaled_lev (normalizeText a.title) (normalizeText b.title)) p)

/-- `tag_distance` from qualitycheck.py. -/
def tag_distance (a b : Paper) : ℚ :=
  set_distance a.tags.toFinset b.tags.toFinset

/-- `pub_type_distance` from qualitycheck.py. -/
def pub_type_distance (a b : Paper) : ℚ :=
  set_distance a.pub_type.toFinset b.pub_type.toFinset

/-- `number_distance` from qualitycheck.py. -/
def number_distance (a b : Paper) : ℚ :=
  if a.number = none ∧ b.number = none then 0
  else if a.number = b.number then 0
  else 1

/-- `paper_distance` from qualitycheck.py: the weighted average of the nine
sub-distances (total weight 10). -/
def paper_distance (a b : Paper) : Option ℚ :=
  match bibtex_distance a b, title_distance a b, author_distance a b,
      arxiv_distance a b, doi_distance a b with
  | some bd, some td, some ad, some xd, some dd =>
      some ((1 * bd + 3 * td + 2 * ad + 1 * year_distance a b
        + (1 / 2) * pub_type_distance a b + 1 * tag_distance a b
        + (1 / 2) * number_distance a b + (1 / 2) * xd + (1 / 2) * dd)
        / (1 + 3 + 2 + 1 + 1 / 2 + 1 + 1 / 2 + 1 / 2 + 1 / 2))
  | _, _, _, _, _ => none

/-- A minimal paper without an arxiv id (used to probe the distance
function). -/
def cexPaperNoArxiv : Paper :=
  ⟨"p".toList, ⟨"a".toList, 2000, "b".toList⟩, "t".toList, ["x".toList],
    2000, [], [], none, none, none⟩

/-- The same paper, except that an arxiv id is present. -/
def cexPaperWithArxiv : Paper :=
  ⟨"p".toList, ⟨"a".toList, 2000, "b".toList⟩, "t".toList, ["x".toList],
    2000, [], [], none, none, some "2004".toList⟩

/-- Index of the first (leftmost) occurrence of `sep` in `s`. -/
def firstSepIdx (sep : List Char) : List Char → Option Nat
  | [] => if sep.isPrefixOf ([] : List Char) then some 0 else none
  | c :: rest =>
      if sep.isPrefixOf (c :: rest) then some 0
      else (firstSepIdx sep rest).map (· + 1)

/-- Fuel-driven worker for Python `str.split(sep)`. -/
def pySplitAux (sep : List Char) : Nat → List Char → List (List Char)
  | 0, s => [s]
  | f + 1, s =>
      match firstSepIdx sep s with
      | none => [s]
      | some k => s.take k :: pySplitAux sep f (s.drop (k + sep.length))

/-- Python `str.split(sep)`: non-overlapping leftmost splits, `[""]` for the
empty string. -/
def pySplit (sep s : List Char) : List (List Char) := pySplitAux sep (s.length + 1) s

/-- Python whitespace (the class `\s` over ASCII). -/
def pyWs (c : Char) : Bool :=
  c = ' ' || c = '\t' || c = '\n' || c = '\r' || c.toNat = 11 || c.toNat = 12

/-- Python `str.split()` (no separator): split on whitespace runs, dropping
empty fields. -/
def pySplitWhitespace : List Char → List (List Char) :=
  go []
where
  go : List Char → List Char → List (List Char)
    | cur, [] => if cur = [] then [] else [cur.reverse]
    | cur, c :: rest =>
        if pyWs c then
          if cur = [] then go [] rest else cur.reverse :: go [] rest
        else go (c :: cur) rest

/-- Python `str.split(None, maxsplit)`: after `maxsplit` splits the remainder
is kept verbatim (leading whitespace stripped). -/
def pySplitWsMax : Nat → List Char → List (List Char)
  | 0, s =>
      let s' := s.dropWhile pyWs
      if s' = [] then [] else [s']
  | k + 1, s =>
      let s' := s.dropWhile pyWs
      match s' with
      | [] => []
      | _ =>
          s'.takeWhile (fun c => !pyWs c)
            :: pySplitWsMax k (s'.dropWhile (fun c => !pyWs c))

/-- Python `str.strip()`. -/
def pyStrip (s : List Char) : List Char :=
  ((s.dropWhile pyWs).reverse.dropWhile pyWs).reverse

/-- Python `str.replace(c, repl)` for a single-character pattern. -/
def replaceChar (c : Char) (repl : List Char) (s : List Char) : List Char :=
  s.flatMap (fun x => if x = c then repl else [x])

/-- The regex class `[A-Z]`. -/
def isUpperAZ (c : Char) : Bool := 65 ≤ c.toNat && c.toNat ≤ 90

/-- `RE_NUMBER` from filesystem.py: `^[0-9]+$`. -/
def reNumberMatch (s : List Char) : Bool := !s.isEmpty && s.all isDigitChar

/-- `RE_NAME` from filesystem.py: `^[A-Za-z].*$`. -/
def reNameMatch : List Char → Bool
  | [] => false
  | c :: rest => (isAzChar c || isUpperAZ c) && rest.all (fun ch => ch ≠ '\n')

/-- Feasibility of a `RE_MAIN` year run starting at `j` given that group 1
ends at `i` (the middle `.*` cannot contain a newline). -/
def reMainCheckJ (s : List Char) (i j : Nat) : Bool :=
  i + 1 ≤ j && digits4At s j
    && ((s.drop (i + 1)).take (j - (i + 1))).all (fun c => c ≠ '\n')

/-- Greedy (largest) year-run start for `RE_MAIN`, matching the greedy middle
`.*`. -/
def reMainFindJ (s : List Char) (i : Nat) : Nat → Option Nat
  | 0 => none
  | j + 1 => if reMainCheckJ s i (j + 1) then some (j + 1) else reMainFindJ s i j

/-- Does `RE_MAIN` match with group 1 of length `i`? -/
def reMainMatchAtI (s : List Char) (i : Nat) : Bool :=
  (s.take i).all (fun c => c ≠ '\n') && (s.drop i).head? = some '_'
    && (reMainFindJ s i s.length).isSome

/-- Greedy (largest) end of group 1 for `RE_MAIN` `(.*)_.*([0-9]{4})`. -/
def reMainFindI (s : List Char) : Nat → Option Nat
  | 0 => if reMainMatchAtI s 0 then some 0 else none
  | i + 1 => if reMainMatchAtI s (i + 1) then some (i + 1) else reMainFindI s i

/-- `RE_MAIN.match(title)`: returns (group 1, int value of group 2). -/
def reMainMatch (s : List Char) : Option (List Char × Nat) :=
  match reMainFindI s s.length with
  | none => none
  | some i =>
      match reMainFindJ s i s.length with
      | none => none
      | some j => some (s.take i, digitsToNat ((s.drop j).take 4))

/-- The two literal variants of a pub-type marker `_[Xx]base`. -/
def markerVariants : List Char → List (List Char)
  | [] => []
  | c :: rest => ['_' :: c :: rest, '_' :: c.toUpper :: rest]

/-- One left-to-right non-overlapping `re.sub(pat, '')` pass for literal
alternative patterns; also reports whether anything matched (`findall`). -/
def removeAllSub (pats : List (List Char)) : Nat → List Char → Bool × List Char
  | 0, s => (false, s)
  | _ + 1, [] => (false, [])
  | f + 1, c :: rest =>
      match pats.find? (fun p => p.isPrefixOf (c :: rest)) with
      | some p =>
          let r := removeAllSub pats f ((c :: rest).drop p.length)
          (true, r.2)
      | none =>
          let r := removeAllSub pats f rest
          (r.1, c :: r.2)

/-- Scan-and-strip one pub-type marker (e.g. `RE_BOOK`). -/
def scanMarker (base s : List Char) : Bool × List Char :=
  removeAllSub (markerVariants base) (s.length + 1) s

/-- `RE_A_FOO.sub(_uncapword, text)`: insert a space and lowercase after a
lone `A` not preceded by an uppercase letter. -/
def reAFooSub : Option Char → List Char → List Char
  | _, [] => []
  | _, [c] => [c]
  | prev, c :: c2 :: rest2 =>
      if c = 'A' && isUpperAZ c2
          && (match prev with | none => true | some pc => !isUpperAZ pc) then
        'A' :: ' ' :: c2.toLower :: reAFooSub (some c2) rest2
      else c :: reAFooSub (some c) (c2 :: rest2)

/-- `RE_CAPWORDS.sub(_uncapword, text)`: de-camel-casing pass. -/
def reCapwordsSub : List Char → List Char
  | [] => []
  | [c] => [c]
  | c1 :: c2 :: rest =>
      if !isUpperAZ c1 && isUpperAZ c2 then
        c1 :: ' ' :: c2.toLower :: reCapwordsSub rest
      else c1 :: reCapwordsSub (c2 :: rest)

/-- `uncapword` from filesystem.py. -/
def uncapword (text : List Char) : List Char := reCapwordsSub (reAFooSub none text)

/-- `RE_MULTISPACE.sub(' ', text)`: collapse runs of spaces. -/
def collapseSpacesAux : Bool → List Char → List Char
  | _, [] => []
  | true, c :: rest =>
      if c = ' ' then collapseSpacesAux true rest else c :: collapseSpacesAux false rest
  | false, c :: rest =>
      if c = ' ' then ' ' :: collapseSpacesAux true rest else c :: collapseSpacesAux false rest

/-- Collapse multiple spaces to one. -/
def collapseSpaces (s : List Char) : List Char := collapseSpacesAux false s

/-- `\w` over ASCII plus the explicitly allowed `+.-` of `RE_UNWANTED`. -/
def keepUnwanted (c : Char) : Bool :=
  c.isAlphanum || c = '_' || c = '+' || c = '.' || c = '-'

/-- `RE_TITLE_WORD`: `^([a-z].*)$`. -/
def reTitleWordMatch : List Char → Bool
  | [] => false
  | c :: rest => isAzChar c && rest.all (fun ch => ch ≠ '\n')

/-- `SKIP_TITLE_WORDS` from schema.py. -/
def SKIP_TITLE_WORDS : List (List Char) :=
  ["a".toList, "an".toList, "on".toList, "in".toList, "the".toList]

/-- The loop body of `BibtexKey.title_word`. -/
def title_word_go : List (List Char) → List Char
  | [] => []
  | w :: ws =>
      let w' := (w.map Char.toLower).filter keepUnwanted
      if reTitleWordMatch w' && !SKIP_TITLE_WORDS.contains w' then w'
      else title_word_go ws

/-- `BibtexKey.title_word` from schema.py. -/
def BibtexKey.title_word (title : List Char) : List Char :=
  title_word_go (pySplitWhitespace title)

/-- The separator token of the filename grammar. -/
def SEPARATOR : List Char := "_-_".toList

/-- `ParseError` from filesystem.py. -/
structure ParseError where
  path : List Char
  reason : List Char
deriving DecidableEq, Repr

/-- The formatted reason for a missing separator. -/
def reasonMissingSep : List Char :=
  "missing separator \"[warning]_-_[/warning]\"".toList

/-- The formatted reason for an empty author list. -/
def reasonNoAuthors : List Char := "[warning]no authors[/warning]".toList

/-- The formatted reason for a missing year. -/
def reasonNoYear : List Char := "[warning]no year[/warning]".toList

/-- The last component of a path (the file name after `os.path.split`). -/
def fileNameOf (p : List Char) : List Char := (pySplit "/".toList p).getLastD []

/-- The tag sequence: directory components with the root components dropped. -/
def tagsOf (p root : List Char) : List (List Char) :=
  ((pySplit "/".toList p).dropLast).drop (pySplit "/".toList root).length

/-- The body of `parse` from filesystem.py, after `os.path.split`. -/
def parseAux (file_path : List Char) (tags : List (List Char)) (file_name : List Char) :
    Option Paper × Option ParseError :=
  match pySplit SEPARATOR file_name with
  | [authors_part, title0] =>
      let authorsAll := pySplit "_".toList authors_part
      let number : Option (List Char) :=
        match authorsAll with
        | a0 :: _ => if reNumberMatch a0 then some a0 else none
        | [] => none
      let authors :=
        match authorsAll with
        | a0 :: rest => if reNumberMatch a0 then rest else a0 :: rest
        | [] => []
      if authors = [] then (none, some ⟨file_path, reasonNoAuthors⟩)
      else if authors.any (fun a => !reNameMatch a) then
        (none, some ⟨file_path, "non-name author in [warning]".toList
          ++ List.intercalate ", ".toList authors ++ "[/warning]".toList⟩)
      else
        match reMainMatch title0 with
        | none => (none, some ⟨file_path, reasonNoYear⟩)
        | some (title1, year) =>
            let r1 := scanMarker "book".toList title1
            let r2 := scanMarker "slides".toList r1.2
            let r3 := scanMarker "survey".toList r2.2
            let r4 := scanMarker "thesis".toList r3.2
            let pub_type := (if r1.1 then ["book".toList] else [])
              ++ (if r2.1 then ["slides".toList] else [])
              ++ (if r3.1 then ["survey".toList] else [])
              ++ (if r4.1 then ["thesis".toList] else [])
            let title5 := collapseSpaces (uncapword (replaceChar '_' " - ".toList r4.2))
            let bibtex : BibtexKey :=
              ⟨(authors.headD []).map Char.toLower, Int.ofNat year,
                BibtexKey.title_word title5⟩
            match BibtexKey.parse bibtex.str with
            | none => (none, some ⟨file_path, "invalid BibTex key [warning]".toList
                ++ bibtex.str ++ "[/warning]".toList⟩)
            | some _ =>
                (some ⟨file_path, bibtex, title5, authors, Int.ofNat year, pub_type,
                  tags, number, none, none⟩, none)
  | _ => (none, some ⟨file_path, reasonMissingSep⟩)

/-- `parse` from filesystem.py. -/
def parse (file_path root : List Char) : Option Paper × Option ParseError :=
  parseAux file_path (tagsOf file_path root) (fileNameOf file_path)

/-- Strict lexicographic comparison of strings by code points (Python `<`). -/
def ltListChar : List Char → List Char → Bool
  | [], [] => false
  | [], _ :: _ => true
  | _ :: _, [] => false
  | x :: xs, y :: ys =>
      if x.toNat = y.toNat then ltListChar xs ys else decide (x.toNat < y.toNat)

/-- Non-strict lexicographic comparison by code points (Python `<=`). -/
def leListChar : List Char → List Char → Bool
  | [], _ => true
  | _ :: _, [] => false
  | x :: xs, y :: ys =>
      if x.toNat = y.toNat then leListChar xs ys else decide (x.toNat < y.toNat)

/-- The order Python `sorted` uses on strings, as a relation. -/
def pyStrLe (a b : List Char) : Prop := leListChar a b = true

instance : DecidableRel pyStrLe :=
  fun a b => instDecidableEqBool (leListChar a b) true

/-- Sorting as Python `sorted` does (stable; total order by code points). -/
def insertionSortLC (l : List (List Char)) : List (List Char) :=
  List.insertionSort pyStrLe l

/-- Char-wise match of a filename tail against the `[{c}{C}]` classes built
by `_ending_globs`. -/
def classMatch : List Char → List Char → Bool
  | [], _ => true
  | _ :: _, [] => false
  | p :: ps, t :: ts => (t = p || t = p.toUpper) && classMatch ps ts

/-- Does the glob `*.[{c}{C}]...` built for `ending` match the file name? -/
def matchesEndingGlob (ending name : List Char) : Bool :=
  classMatch ending.reverse name.reverse
    && (name.reverse.getD ending.length ' ') = '.'

/-- `yield_all_paths` from filesystem.py over a filesystem modelled as the
list of file paths under the root: for each ending glob (globs built from the
sorted set of endings) the matching paths, sorted; groups concatenated. -/
def yield_all_paths (fs endings : List (List Char)) : List (List Char) :=
  (insertionSortLC endings.dedup).flatMap
    (fun e => insertionSortLC (fs.filter (fun p => matchesEndingGlob e (fileNameOf p))))

/-- Case-insensitive literal prefix match; returns the remainder. -/
def matchCI : List Char → List Char → Option (List Char)
  | [], s => some s
  | _ :: _, [] => none
  | p :: ps, c :: cs => if c.toLower = p.toLower then matchCI ps cs else none

/-- The class `[0-9A-Z]` under `re.IGNORECASE`. -/
def isAlnumCI (c : Char) : Bool := isDigitChar c || isAzChar c || isUpperAZ c

/-- Attempt to match `RE_ARXIV` at the head of `s`; returns the full matched
text and the remainder.  The pattern is
`arXiv:\s*[0-9]{4}\.[0-9]{4,5}(?:v[0-9]+)?` (IGNORECASE), whose greedy
matching is deterministic. -/
def matchArxivAt (s : List Char) : Option (List Char × List Char) :=
  match matchCI "arxiv:".toList s with
  | none => none
  | some r1 =>
      let ws := r1.takeWhile pyWs
      let r2 := r1.dropWhile pyWs
      let d1 := r2.take 4
      if d1.length = 4 && d1.all isDigitChar then
        match r2.drop 4 with
        | '.' :: r3 =>
            let run := r3.takeWhile isDigitChar
            if 4 ≤ run.length then
              let d2 := run.take 5
              let r4 := r3.drop d2.length
              let vtail :=
                match r4 with
                | 'v' :: r5 =>
                    let vd := r5.takeWhile isDigitChar
                    if vd = [] then ([], r4) else ('v' :: vd, r5.drop vd.length)
                | _ => (([] : List Char), r4)
              some (s.take 6 ++ ws ++ d1 ++ '.' :: d2 ++ vtail.1, vtail.2)
            else none
        | _ => none
      else none

/-- `RE_ARXIV.findall`: left-to-right non-overlapping scan. -/
def findAllArxiv : Nat → List Char → List (List Char)
  | 0, _ => []
  | _ + 1, [] => []
  | f + 1, c :: rest =>
      match matchArxivAt (c :: rest) with
      | some (m, r) => m :: findAllArxiv f r
      | none => findAllArxiv f rest

/-- `RE_ARXIV_PREFIX.sub('', x)` specialised to `RE_ARXIV` matches, whose
only occurrence of the prefix is at the start. -/
def stripArxivPre (x : List Char) : List Char :=
  match matchCI "arxiv:".toList x with
  | some r => r.dropWhile pyWs
  | none => x

/-- The star `(?:[\.-][0-9A-Z]+)*` of `RE_DOI`: greedy, deterministic.
Returns the consumed text and the remainder. -/
def doiStar : Nat → List Char → List Char × List Char
  | 0, s => ([], s)
  | f + 1, s =>
      match s with
      | c :: rest =>
          if (c = '.' || c = '-') && (rest.takeWhile isAlnumCI) ≠ [] then
            let run := rest.takeWhile isAlnumCI
            let r := doiStar f (rest.drop run.length)
            (c :: run ++ r.1, r.2)
          else ([], s)
      | [] => ([], s)

/-- The capture group `(10\.[0-9]{4,}(?:[\./][0-9A-Z]+)?(?:[\.-][0-9A-Z]+)*)`
of `RE_DOI`, matched at the head of `s`. -/
def matchDoiGroup (s : List Char) : Option (List Char × List Char) :=
  match matchCI "10.".toList s with
  | none => none
  | some r1 =>
      let run := r1.takeWhile isDigitChar
      if 4 ≤ run.length then
        let r2 := r1.drop run.length
        let optPart :=
          match r2 with
          | c :: rest =>
              if (c = '.' || c = '/') && (rest.takeWhile isAlnumCI) ≠ [] then
                let arun := rest.takeWhile isAlnumCI
                (c :: arun, rest.drop arun.length)
              else (([] : List Char), r2)
          | [] => (([] : List Char), r2)
        let star := doiStar optPart.2.length optPart.2
        some ("10.".toList ++ run ++ optPart.1 ++ star.1, star.2)
      else none

/-- The part of `RE_DOI` after the optional scheme prefix:
`\s*doi(?:\.org)?/?:?\s*` followed by the capture group. -/
def matchDoiCore (s : List Char) : Option (List Char × List Char) :=
  match matchCI "doi".toList (s.dropWhile pyWs) with
  | none => none
  | some r1 =>
      let r2 := match matchCI ".org".toList r1 with | some r => r | none => r1
      let r3 := match r2 with | '/' :: r => r | _ => r2
      let r4 := match r3 with | ':' :: r => r | _ => r3
      matchDoiGroup (r4.dropWhile pyWs)

/-- Attempt to match `RE_DOI` at the head of `s`; returns the captured group
and the remainder.  The optional alternation `(?:https://|info:)?` is tried
in order; if the chosen prefix makes the rest fail the engine retries
without it. -/
def matchDoiAt (s : List Char) : Option (List Char × List Char) :=
  match matchCI "https://".toList s with
  | some r =>
      match matchDoiCore r with
      | some g => some g
      | none => matchDoiCore s
  | none =>
      match matchCI "info:".toList s with
      | some r =>
          match matchDoiCore r with
          | some g => some g
          | none => matchDoiCore s
      | none => matchDoiCore s

/-- `RE_DOI.findall` (returns the capture group of each match). -/
def findAllDoi : Nat → List Char → List (List Char)
  | 0, _ => []
  | _ + 1, [] => []
  | f + 1, c :: rest =>
      match matchDoiAt (c :: rest) with
      | some (g, r) =>
          if r.length < rest.length + 1 then g :: findAllDoi f r
          else g :: findAllDoi f rest
      | none => findAllDoi f rest

/-- `extract_ids_from_fulltext` from search.py: truncate to `ids_chars`,
collect the distinct DOI and arXiv candidates, and return an id only when
there is exactly one candidate of its kind. -/
def extract_ids_from_fulltext (fulltext : List Char) (ids_chars : Option Nat) :
    Option (List Char) × Option (List Char) :=
  let ft := match ids_chars with | some n => fulltext.take n | none => fulltext
  let dois := (findAllDoi (ft.length + 1) ft).dedup
  let arxivs := ((findAllArxiv (ft.length + 1) ft).map stripArxivPre).dedup
  ((if dois.length = 1 then dois.head? else none),
   (if arxivs.length = 1 then arxivs.head? else none))

/-- Python-level runtime errors that the embedded code can raise. -/
inductive PyErr where
  | unboundLocal (name : List Char)
  | assertionError
  | attributeError (name : List Char)
  | typeError
  | exception (msg : List Char)
deriving DecidableEq, Repr

/-- The target of an `IndexingAction`: a raw path or a parsed `Paper`. -/
inductive ActionTarget where
  | path (p : List Char)
  | paper (p : Paper)
deriving DecidableEq, Repr

/-- `IndexingAction` from schema.py. -/
structure IndexingAction where
  action : List Char
  target : ActionTarget
deriving DecidableEq, Repr

/-- A document as assembled by the `fields` dict of `_index_papers`. -/
structure IndexedDoc where
  path : List Char
  bibtex : List Char
  title : List Char
  comment : List Char
  authors : List Char
  year : Int
  body : List Char
  pub_type : List Char
  tags : List Char
  number : Option (List Char)
  doi : Option (List Char)
  arxiv : Option (List Char)
deriving DecidableEq, Repr

/-- One staged index-writer call. -/
inductive WriterOp where
  | add (d : IndexedDoc)
  | del (path : List Char)
deriving DecidableEq, Repr

/-- Python truthiness for an optional string (`if doi:`). -/
def truthyOpt (o : Option (List Char)) : Option (List Char) :=
  match o with
  | some s => if s = [] then none else some s
  | none => none

/-- The indexing loop of `_index_papers` from search.py.  The locals `body`,
`doi` and `arxiv` are threaded as `Option` values, `none` meaning unbound;
they are only assigned in the not-too-slow branch, exactly as in the
source. -/
def indexPapersGo (extract : List Char → List Char)
    (extractIds : List Char → Option (List Char) × Option (List Char))
    (tooSlow : List (List Char)) :
    Option (List Char) → Option (Option (List Char)) → Option (Option (List Char)) →
      List IndexingAction → Except PyErr (List WriterOp)
  | _, _, _, [] => .ok []
  | bodyL, doiL, arxivL, ia :: rest =>
      match ia.target with
      | .path _ => .error (.exception "Indexing requires a Paper".toList)
      | .paper paper =>
          if ia.action = "A".toList then
            if paper.path.head? ≠ some '/' then .error .assertionError
            else
              let path := paper.path
              let st :=
                if path ∈ tooSlow then (bodyL, doiL, arxivL)
                else
                  let b := extract path
                  let ids := extractIds b
                  (some b, some ids.1, some ids.2)
              match st.1, st.2.1, st.2.2 with
              | some b, some dv, some av =>
                  let doc : IndexedDoc :=
                    ⟨path, paper.bibtex.str, paper.title, [],
                      List.intercalate ", ".toList paper.authors, paper.year, b,
                      List.intercalate " ".toList paper.pub_type,
                      List.intercalate " ".toList paper.tags,
                      truthyOpt paper.number, truthyOpt dv, truthyOpt av⟩
                  match indexPapersGo extract extractIds tooSlow
                      (some b) (some dv) (some av) rest with
                  | .ok ops => .ok (.add doc :: ops)
                  | .error e => .error e
              | none, _, _ => .error (.unboundLocal "body".toList)
              | _, none, _ => .error (.unboundLocal "doi".toList)
              | _, _, none => .error (.unboundLocal "arxiv".toList)
          else if ia.action = "D".toList then
            match indexPapersGo extract extractIds tooSlow bodyL doiL arxivL rest with
            | .ok ops => .ok (.del paper.path :: ops)
            | .error e => .error e
          else
            indexPapersGo extract extractIds tooSlow bodyL doiL arxivL rest

/-- The action loop of `_index_papers`, started with all three locals
unbound. -/
def index_papers_loop (extract : List Char → List Char)
    (extractIds : List Char → Option (List Char) × Option (List Char))
    (tooSlow : List (List Char)) (papers : List IndexingAction) :
    Except PyErr (List WriterOp) :=
  indexPapersGo extract extractIds tooSlow none none none papers

/-- `Decision` from conf.py. -/
structure Decision where
  relation : List Char
  arg1 : List Char
  arg2 : Option (List Char)
deriving DecidableEq, Repr

/-- The class attributes of `Decisions` in conf.py: only `IGNORE` and
`FULLTEXT_TOO_SLOW` are defined. -/
def decisionsClassAttrs : List (List Char × List Char) :=
  [("IGNORE".toList, "IGNORE".toList),
   ("FULLTEXT_TOO_SLOW".toList, "FULLTEXT_TOO_SLOW".toList)]

/-- Python attribute lookup on the `Decisions` class. -/
def decisionsGetAttr (name : List Char) : Option (List Char) :=
  (decisionsClassAttrs.find? (fun kv => kv.1 = name)).map (·.2)

/-- Python `<` on decisions (tuple order); `none`-vs-`some` on `arg2` is
ordered `None` first (Python would raise `TypeError` there, so results are
only meaningful when compared values agree in `arg2` presence). -/
def decLe (a b : Decision) : Bool :=
  if ltListChar a.relation b.relation then true
  else if ltListChar b.relation a.relation then false
  else if ltListChar a.arg1 b.arg1 then true
  else if ltListChar b.arg1 a.arg1 then false
  else
    match a.arg2, b.arg2 with
    | none, _ => true
    | some _, none => false
    | some x, some y => leListChar x y

/-- The `sorted` order on decisions as a relation. -/
def decLeRel (a b : Decision) : Prop := decLe a b = true

instance : DecidableRel decLeRel :=
  fun a b => instDecidableEqBool (decLe a b) true

/-- One serialized decision line (without the newline). -/
def decisionLine (d : Decision) : List Char :=
  match d.arg2 with
  | none => d.relation ++ "\t".toList ++ d.arg1
  | some a2 => d.relation ++ "\t".toList ++ d.arg1 ++ "\t".toList ++ a2

/-- `Decisions.write` from conf.py: sorted, deduplicated, one line per
decision, each terminated by a newline (the file content that ends up at the
target path after the atomic rename). -/
def Decisions_write (ds : List Decision) : List Char :=
  ((List.insertionSort decLeRel ds.dedup).map
    (fun d => decisionLine d ++ "\n".toList)).flatten

/-- The per-line loop of `Decisions.read`: strip, split on whitespace with
maxsplit 3, skip one-field lines, pad two-field lines with `None`; any other
arity makes `Decision(*parts)` raise `TypeError`. -/
def decisionsReadLines : List (List Char) → Except PyErr (List Decision)
  | [] => .ok []
  | line :: rest =>
      match pySplitWsMax 3 (pyStrip line) with
      | [_] => decisionsReadLines rest
      | [r, a1] =>
          match decisionsReadLines rest with
          | .ok ds => .ok (⟨r, a1, none⟩ :: ds)
          | .error e => .error e
      | [r, a1, a2] =>
          match decisionsReadLines rest with
          | .ok ds => .ok (⟨r, a1, some a2⟩ :: ds)
          | .error e => .error e
      | _ => .error .typeError

/-- `Decisions.read` from conf.py, over the file content. -/
def Decisions_read (content : List Char) : Except PyErr (List Decision) :=
  decisionsReadLines ((pySplit "\n".toList content).dropLast)

/-- The ignored-duplicates pairs, as built on the first line of
`all_duplicates` (never reached: the attribute lookup raises first). -/
def ignoredPairs (rel : List Char) (ds : List Decision) : List (List Char × List Char) :=
  (ds.filter (fun d => d.relation = rel)).map (fun d => (d.arg1, d.arg2.getD []))

/-- `all_duplicates` from qualitycheck.py.  Its first statement evaluates
`decisions.IGNORE_DUPLICATE`, an attribute the `Decisions` class does not
define, so the call raises `AttributeError`; the candidate-pair scan behind
it is modelled over an abstract close-match oracle. -/
def all_duplicates (indexPapers : List Paper) (ds : List Decision)
    (closeMatches : Paper → List (ℚ × Paper)) :
    Except PyErr (List ((Paper × Paper) × ℚ)) :=
  match decisionsGetAttr "IGNORE_DUPLICATE".toList with
  | none => .error (.attributeError "IGNORE_DUPLICATE".toList)
  | some rel =>
      let ignored := ignoredPairs rel ds
      let pairs := indexPapers.flatMap (fun cur =>
        (closeMatches cur).filterMap (fun dc =>
          if (cur.path, dc.2.path) ∈ ignored ∨ (dc.2.path, cur.path) ∈ ignored then none
          else some ((cur, dc.2), dc.1)))
      .ok (pairs.mergeSort (fun a b => decide (a.2 ≤ b.2)))

/-- A file-system operation, at the granularity of the system calls done by
`StoredState.write` and `Decisions.write`. -/
inductive FsOp where
  | truncate (path : List Char)
  | append (path : List Char) (content : List Char)
  | replace (src dst : List Char)
deriving DecidableEq, Repr

/-- A file system: an association of paths to contents. -/
def FS : Type := List (List Char × List Char)

/-- Read a file. -/
def fsGet (fs : FS) (p : List Char) : Option (List Char) :=
  ((fs : List (List Char × List Char)).find? (fun kv => kv.1 = p)).map (·.2)

/-- Create or overwrite a file. -/
def fsSet (fs : FS) (p v : List Char) : FS :=
  (p, v) :: (fs : List (List Char × List Char)).filter (fun kv => ¬ kv.1 = p)

/-- Remove a file. -/
def fsDel (fs : FS) (p : List Char) : FS :=
  (fs : List (List Char × List Char)).filter (fun kv => ¬ kv.1 = p)

/-- Apply one operation (`none` = the operation fails). -/
def applyOp (fs : FS) : FsOp → Option FS
  | .truncate p => some (fsSet fs p [])
  | .append p c =>
      match fsGet fs p with
      | some v => some (fsSet fs p (v ++ c))
      | none => none
  | .replace src dst =>
      match fsGet fs src with
      | some v => some (fsSet (fsDel fs src) dst v)
      | none => none

/-- Apply a sequence of operations. -/
def applyOps (fs : FS) : List FsOp → Option FS
  | [] => some fs
  | op :: ops =>
      match applyOp fs op with
      | some fs' => applyOps fs' ops
      | none => none

/-- The operations of `StoredState.write`: open the target with mode `w`
(truncate) and print the value — no temporary file, no rename. -/
def storedStateWriteOps (path value : List Char) : List FsOp :=
  [.truncate path, .append path (value ++ "\n".toList)]

/-- The operations of `Decisions.write`: truncate the temp file, print one
line per decision, then `os.replace` it over the target. -/
def decisionsWriteOps (tmpPath targetPath : List Char) (lines : List (List Char)) :
    List FsOp :=
  .truncate tmpPath
    :: (lines.map (fun l => FsOp.append tmpPath (l ++ "\n".toList)))
    ++ [.replace tmpPath targetPath]

/-- The full content the decisions write produces. -/
def linesContent (lines : List (List Char)) : List Char :=
  (lines.map (fun l => l ++ "\n".toList)).flatten

/-- Well-formedness of a decision as the persistence layer assumes it:
nonempty fields with no whitespace (the file format is whitespace-delimited). -/
def validDec (d : Decision) : Bool :=
  !d.relation.isEmpty && d.relation.all (fun c => !pyWs c)
    && (!d.arg1.isEmpty && d.arg1.all (fun c => !pyWs c))
    && (match d.arg2 with
        | none => true
        | some a2 => !a2.isEmpty && a2.all (fun c => !pyWs c))

/-! ## Theorems -/

/-- The fuel argument of `toDecAux` is irrelevant once it exceeds `n`. -/
theorem toDecAux_fuel : ∀ (n f g : Nat), n < f → n < g → toDecAux f n = toDecAux g n := by
  intro n
  induction n using Nat.strong_induction_on with
  | _ n ih =>
    intro f g hf hg
    match f, g with
    | f + 1, g + 1 =>
      simp only [toDecAux]
      by_cases h : n < 10
      · simp [h]
      · have hdiv : n / 10 < n := Nat.div_lt_self (by omega) (by omega)
        rw [if_neg h, if_neg h, ih (n / 10) hdiv f g (by omega) (by omega)]

theorem toDecAux_step (f n : Nat) (h10 : 10 ≤ n) :
    toDecAux (f + 1) n = toDecAux f (n / 10) ++ [Char.ofNat (48 + n % 10)] := by
  simp [toDecAux, Nat.not_lt_of_le h10]

/-- A four-digit number renders as exactly its four decimal digits. -/
theorem natStr_eq_four_digits (y : Nat) (h1 : 1000 ≤ y) (h2 : y ≤ 9999) :
    natStr y = [Char.ofNat (48 + y / 1000), Char.ofNat (48 + y / 100 % 10),
      Char.ofNat (48 + y / 10 % 10), Char.ofNat (48 + y % 10)] := by
  have e1 : natStr y = toDecAux y (y / 10) ++ [Char.ofNat (48 + y % 10)] :=
    toDecAux_step y y (by omega)
  have f1 : toDecAux y (y / 10) = toDecAux (y / 10 + 1) (y / 10) :=
    toDecAux_fuel (y / 10) y (y / 10 + 1) (by omega) (by omega)
  have e2 : toDecAux (y / 10 + 1) (y / 10)
      = toDecAux (y / 10) (y / 10 / 10) ++ [Char.ofNat (48 + y / 10 % 10)] :=
    toDecAux_step (y / 10) (y / 10) (by omega)
  have f2 : toDecAux (y / 10) (y / 10 / 10) = toDecAux (y / 10 / 10 + 1) (y / 10 / 10) :=
    toDecAux_fuel (y / 10 / 10) (y / 10) (y / 10 / 10 + 1) (by omega) (by omega)
  have e3 : toDecAux (y / 10 / 10 + 1) (y / 10 / 10)
      = toDecAux (y / 10 / 10) (y / 10 / 10 / 10) ++ [Char.ofNat (48 + y / 10 / 10 % 10)] :=
    toDecAux_step (y / 10 / 10) (y / 10 / 10) (by omega)
  have f3 : toDecAux (y / 10 / 10) (y / 10 / 10 / 10)
      = [Char.ofNat (48 + y / 10 / 10 / 10)] := by
    have hlt : y / 10 / 10 / 10 < 10 := by omega
    obtain ⟨m, hm⟩ : ∃ m, y / 10 / 10 = m + 1 := ⟨y / 10 / 10 - 1, by omega⟩
    rw [hm] at hlt ⊢
    simp [toDecAux, hlt]
  have hd1 : y / 10 / 10 / 10 = y / 1000 := by omega
  have hd2 : y / 10 / 10 % 10 = y / 100 % 10 := by omega
  rw [show natStr y = natStr y from rfl, e1, f1, e2, f2, e3, f3, hd1, hd2]
  simp

theorem ofNat_digit_isDigit (d : Nat) (h : d < 10) :
    isDigitChar (Char.ofNat (48 + d)) = true := by
  interval_cases d <;> decide

theorem digitVal_ofNat (d : Nat) (h : d < 10) : digitVal (Char.ofNat (48 + d)) = d := by
  interval_cases d <;> decide

/-- Reading back the four rendered digits recovers the number. -/
theorem digitsToNat_natStr (y : Nat) (h1 : 1000 ≤ y) (h2 : y ≤ 9999) :
    digitsToNat (natStr y) = y := by
  rw [natStr_eq_four_digits y h1 h2]
  simp only [digitsToNat, List.foldl]
  rw [digitVal_ofNat (y / 1000) (by omega), digitVal_ofNat (y / 100 % 10) (by omega),
    digitVal_ofNat (y / 10 % 10) (by omega), digitVal_ofNat (y % 10) (by omega)]
  omega

theorem natStr_four_len (y : Nat) (h1 : 1000 ≤ y) (h2 : y ≤ 9999) :
    (natStr y).length = 4 := by
  rw [natStr_eq_four_digits y h1 h2]; rfl

theorem natStr_four_digits_all (y : Nat) (h1 : 1000 ≤ y) (h2 : y ≤ 9999) :
    (natStr y).all isDigitChar = true := by
  rw [natStr_eq_four_digits y h1 h2]
  simp only [List.all_cons, List.all_nil, Bool.and_true]
  rw [ofNat_digit_isDigit (y / 1000) (by omega), ofNat_digit_isDigit (y / 100 % 10) (by omega),
    ofNat_digit_isDigit (y / 10 % 10) (by omega), ofNat_digit_isDigit (y % 10) (by omega)]
  rfl

theorem lowerOrHyphen_not_digit (c : Char) (h : isLowerOrHyphen c = true) :
    isDigitChar c = false := by
  simp only [isLowerOrHyphen, isAzChar, Bool.or_eq_true, Bool.and_eq_true,
    decide_eq_true_eq] at h
  rcases h with ⟨h1, h2⟩ | h
  · simp only [isDigitChar, Bool.and_eq_false_iff, decide_eq_false_iff_not]
    omega
  · subst h; decide

theorem lowerOrHyphen_ne_newline (c : Char) (h : isLowerOrHyphen c = true) : c ≠ '\n' := by
  intro he; subst he; revert h; decide

theorem az_lowerOrHyphen (c : Char) (h : isAzChar c = true) : isLowerOrHyphen c = true := by
  simp [isLowerOrHyphen, h]

/-- The descending search of `reBibtexFind` returns the largest feasible
split point. -/
theorem reBibtexFind_spec (s : List Char) (A : Nat)
    (hA : reBibtexMatchAt s A = true)
    (hmax : ∀ j, A < j → reBibtexMatchAt s j = false) :
    ∀ k, A ≤ k → reBibtexFind s k = some A := by
  intro k
  induction k with
  | zero =>
    intro hk
    have hz : A = 0 := by omega
    subst hz
    simp [reBibtexMatchAt, reBibtexSideGroup] at hA
  | succ k ih =>
    intro hk
    by_cases h : A = k + 1
    · subst h
      simp [reBibtexFind, hA]
    · have h2 : reBibtexMatchAt s (k + 1) = false := hmax _ (by omega)
      simp only [reBibtexFind, h2, Bool.false_eq_true, if_false]
      exact ih (by omega)

/-- Claim C3 (amended): `BibtexKey.parse (str k) = k` for keys whose author
matches `[a-z-][a-z-]*` and whose word starts with `[a-z]`, provided the word
additionally contains no newline and no run of four digits followed by a
`[a-z-]` character (otherwise the greedy `RE_BIBTEX` picks a later split). -/
theorem bibtexKey_parse_str_roundtrip (author word : List Char) (year : Int)
    (hA1 : author ≠ [])
    (hA2 : ∀ c ∈ author, isLowerOrHyphen c = true)
    (hY1 : 1000 ≤ year) (hY2 : year ≤ 9999)
    (hW1 : ∃ c rest, word = c :: rest ∧ isAzChar c = true)
    (hW2 : '\n' ∉ word)
    (hW3 : ∀ i, i < word.length → fakeYearWindowAt word i = false) :
    BibtexKey.parse (BibtexKey.str ⟨author, year, word⟩) = some ⟨author, year, word⟩ := by
  obtain ⟨c, rest, hw, hc⟩ := hW1
  have hy1 : 1000 ≤ year.toNat := by omega
  have hy2 : year.toNat ≤ 9999 := by omega
  have hIntStr : intStr year = natStr year.toNat := by
    rw [intStr, if_neg (by omega : ¬ year < 0)]
  have hDlen : (natStr year.toNat).length = 4 := natStr_four_len _ hy1 hy2
  have hDall : (natStr year.toNat).all isDigitChar = true := natStr_four_digits_all _ hy1 hy2
  have hstr : BibtexKey.str ⟨author, year, word⟩ = author ++ (natStr year.toNat ++ word) := by
    simp [BibtexKey.str, hIntStr]
  set s : List Char := author ++ (natStr year.toNat ++ word) with hs
  set A : Nat := author.length with hAdef
  have htakeA : s.take A = author := List.take_left author _
  have hdropA : s.drop A = natStr year.toNat ++ word := List.drop_left author _
  have hdropA4 : s.drop (A + 4) = word := by
    rw [show A + 4 = A + 4 from rfl, ← List.drop_drop, hdropA, List.drop_left' hDlen]
  have htake4 : (s.drop A).take 4 = natStr year.toNat := by
    rw [hdropA, List.take_left' hDlen]
  have hlen : s.length = A + 4 + word.length := by
    rw [hs]; simp [hDlen]; omega
  have hPA : reBibtexMatchAt s A = true := by
    obtain ⟨a0, arest, ha⟩ := List.exists_cons_of_ne_nil hA1
    have hside1 : reBibtexSideGroup (s.take A) = true := by
      rw [htakeA, ha, reBibtexSideGroup, Bool.and_eq_true]
      constructor
      · exact hA2 a0 (by rw [ha]; exact List.mem_cons_self a0 arest)
      · rw [List.all_eq_true]
        intro ch hch
        simp only [decide_eq_true_eq]
        exact lowerOrHyphen_ne_newline ch (hA2 ch (by rw [ha]; exact List.mem_cons_of_mem _ hch))
    have hdig : digits4At s A = true := by
      rw [digits4At, htake4, hDlen, hDall]; rfl
    have hside3 : reBibtexSideGroup (s.drop (A + 4)) = true := by
      rw [hdropA4, hw, reBibtexSideGroup, Bool.and_eq_true]
      constructor
      · exact az_lowerOrHyphen c hc
      · rw [List.all_eq_true]
        intro ch hch
        simp only [decide_eq_true_eq]
        intro he
        exact hW2 (hw ▸ List.mem_cons_of_mem c (he ▸ hch))
    rw [reBibtexMatchAt, hside1, hdig, hside3]; rfl
  have hmax : ∀ j, A < j → reBibtexMatchAt s j = false := by
    intro j hj
    by_contra hne
    have hmt : reBibtexMatchAt s j = true := by
      revert hne; cases reBibtexMatchAt s j <;> simp
    rw [reBibtexMatchAt, Bool.and_eq_true, Bool.and_eq_true] at hmt
    obtain ⟨⟨hg1, hdig⟩, hg3⟩ := hmt
    have hjlen : j + 4 ≤ s.length := by
      rw [digits4At, Bool.and_eq_true] at hdig
      have := hdig.1
      simp only [decide_eq_true_eq, List.length_take, List.length_drop] at this
      omega
    rcases le_or_lt j (A + 4) with hcase | hcase
    · -- the window would overlap the first character of the word
      have ht4 : A + 4 - j < 4 := by omega
      have hdw : (s.drop j).drop (A + 4 - j) = word := by
        rw [List.drop_drop, show j + (A + 4 - j) = A + 4 by omega, hdropA4]
      have h1 : (s.drop j)[A + 4 - j]? = some c := by
        rw [← List.head?_drop, hdw, hw]; rfl
      have h2 : ((s.drop j).take 4)[A + 4 - j]? = some c := by
        rw [List.getElem?_take, if_pos ht4]; exact h1
      have hmem : c ∈ (s.drop j).take 4 := List.getElem?_mem h2
      have hcd : isDigitChar c = true := by
        rw [digits4At, Bool.and_eq_true, List.all_eq_true] at hdig
        exact hdig.2 c hmem
      have hnd := lowerOrHyphen_not_digit c (az_lowerOrHyphen c hc)
      rw [hcd] at hnd
      exact Bool.true_eq_false.mp hnd
    · -- the window sits wholly inside the word: a fake year window
      have hdj : s.drop j = word.drop (j - (A + 4)) := by
        rw [← hdropA4, List.drop_drop]
        congr 1
        omega
      have hdj4 : s.drop (j + 4) = word.drop (j - (A + 4) + 4) := by
        rw [← hdropA4, List.drop_drop]
        congr 1
        omega
      have hfake : fakeYearWindowAt word (j - (A + 4)) = true := by
        rw [fakeYearWindowAt]
        have hd : digits4At word (j - (A + 4)) = true := by
          rw [digits4At, ← hdj]
          rw [digits4At] at hdig
          exact hdig
        rw [hd]
        cases hh : s.drop (j + 4) with
        | nil => rw [hh] at hg3; rw [reBibtexSideGroup] at hg3; exact absurd hg3 (by simp)
        | cons w0 ws =>
          rw [hdj4] at hh
          rw [hh]
          rw [hdj4, hh, reBibtexSideGroup, Bool.and_eq_true] at hg3
          simp only [List.head?_cons]
          rw [hg3.1]
          rfl
      have hiw : j - (A + 4) < word.length := by omega
      have := hW3 (j - (A + 4)) hiw
      rw [hfake] at this
      exact Bool.true_eq_false.mp this
  have hfind : reBibtexFind s s.length = some A :=
    reBibtexFind_spec s A hPA hmax s.length (by omega)
  have hparse : BibtexKey.parse s
      = some ⟨s.take A, Int.ofNat (digitsToNat ((s.drop A).take 4)), s.drop (A + 4)⟩ := by
    rw [BibtexKey.parse, hfind]
  rw [hstr]
  show BibtexKey.parse s = _
  rw [hparse, htakeA, htake4, digitsToNat_natStr _ hy1 hy2, hdropA4,
    show Int.ofNat year.toNat = year from Int.toNat_of_nonneg (by omega)]

/-- Claim C3 counterexample: `author = "a"` matches `[a-z-][a-z-]*`, `word =
"b2001c"` matches `[a-z].*`, `year = 2000` is a 4-digit integer, yet the
greedy `RE_BIBTEX` re-parses the rendered key at the later digit run. -/
theorem bibtexKey_roundtrip_cex :
    (∀ c ∈ "a".toList, isLowerOrHyphen c = true)
    ∧ isAzChar 'b' = true
    ∧ BibtexKey.str ⟨"a".toList, 2000, "b2001c".toList⟩ = "a2000b2001c".toList
    ∧ BibtexKey.parse "a2000b2001c".toList = some ⟨"a2000b".toList, 2001, "c".toList⟩
    ∧ BibtexKey.parse (BibtexKey.str ⟨"a".toList, 2000, "b2001c".toList⟩)
        ≠ some ⟨"a".toList, 2000, "b2001c".toList⟩ := by
  decide

/-- Witness for the amended round-trip at a concrete key. -/
theorem bibtexKey_parse_str_roundtrip_witness :
    BibtexKey.parse (BibtexKey.str ⟨"smith".toList, 2021, "title".toList⟩)
      = some ⟨"smith".toList, 2021, "title".toList⟩ :=
  bibtexKey_parse_str_roundtrip "smith".toList "title".toList 2021 (by decide) (by decide)
    (by decide) (by decide) ⟨'t', "itle".toList, by decide, by decide⟩ (by decide) (by decide)

theorem levF_symm : ∀ (f : Nat) (a b : List Char), levF f a b = levF f b a := by
  intro f
  induction f with
  | zero => intro a b; rfl
  | succ f ih =>
    intro a b
    cases a with
    | nil => cases b with
      | nil => rfl
      | cons y ys => rfl
    | cons x xs =>
      cases b with
      | nil => rfl
      | cons y ys =>
        simp only [levF]
        by_cases h : x = y
        · subst h
          rw [if_pos rfl, if_pos rfl, ih]
        · have h' : ¬ y = x := fun he => h he.symm
          rw [if_neg h, if_neg h', ih xs (y :: ys), ih (x :: xs) ys, ih xs ys,
            min_comm (levF f (y :: ys) xs) (levF f ys (x :: xs))]

theorem levF_self : ∀ (f : Nat) (a : List Char), levF f a a = 0 := by
  intro f
  induction f with
  | zero => intro a; rfl
  | succ f ih =>
    intro a
    cases a with
    | nil => rfl
    | cons x xs => simp [levF, ih]

theorem scaled_lev_symm (a b : List Char) : scaled_lev a b = scaled_lev b a := by
  rw [scaled_lev, scaled_lev, levF_symm, Nat.add_comm a.length b.length,
    max_comm a.length b.length]

theorem scaled_lev_self (a : List Char) : scaled_lev a a = 0 := by
  rw [scaled_lev, levF_self]
  rw [Nat.cast_zero, min_eq_left (by positivity), zero_div]

theorem scaled_lev_nonneg (a b : List Char) : 0 ≤ scaled_lev a b := by
  rw [scaled_lev]
  apply div_nonneg
  · positivity
  · positivity

theorem scaled_lev_le_one (a b : List Char) : scaled_lev a b ≤ 1 := by
  rw [scaled_lev]
  generalize max 3 (max a.length b.length / 3) = M
  rw [div_le_one (by positivity)]
  have h : (min (levF (a.length + b.length) a b) (M + 1)) ≤ M + 1 := min_le_right _ _
  exact_mod_cast h

theorem commonRunLen_symm {α : Type} [DecidableEq α] :
    ∀ (a b : List α), commonRunLen a b = commonRunLen b a := by
  intro a
  induction a with
  | nil => intro b; cases b <;> rfl
  | cons x xs ih =>
    intro b
    cases b with
    | nil => rfl
    | cons y ys =>
      simp only [commonRunLen]
      by_cases h : x = y
      · subst h; rw [if_pos rfl, if_pos rfl, ih]
      · rw [if_neg h, if_neg (fun he => h he.symm)]

theorem commonRunLen_le_min {α : Type} [DecidableEq α] :
    ∀ (a b : List α), commonRunLen a b ≤ min a.length b.length := by
  intro a
  induction a with
  | nil => intro b; cases b <;> simp [commonRunLen]
  | cons x xs ih =>
    intro b
    cases b with
    | nil => simp [commonRunLen]
    | cons y ys =>
      simp only [commonRunLen, List.length_cons]
      by_cases h : x = y
      · rw [if_pos h]
        have := ih ys
        omega
      · rw [if_neg h]
        omega

theorem commonRunLen_self {α : Type} [DecidableEq α] :
    ∀ (a : List α), commonRunLen a a = a.length := by
  intro a
  induction a with
  | nil => rfl
  | cons x xs ih => simp [commonRunLen, ih]

theorem prefix_match_symm {α : Type} [DecidableEq α] (a b : List α) :
    prefix_match a b = prefix_match b a := by
  rw [prefix_match, prefix_match, commonRunLen_symm, min_comm a.length b.length]

theorem prefix_match_some {α : Type} [DecidableEq α] (a b : List α)
    (ha : a ≠ []) (hb : b ≠ []) :
    ∃ v, prefix_match a b = some v ∧ 0 ≤ v ∧ v ≤ 1 := by
  have hm : ¬ min a.length b.length = 0 := by
    rw [Nat.min_eq_zero_iff, List.length_eq_zero, List.length_eq_zero]
    rintro (h | h) <;> [exact ha h; exact hb h]
  refine ⟨_, by rw [prefix_match, if_neg hm], ?_, ?_⟩
  · have h1 : (commonRunLen a b : ℚ) / ((min a.length b.length : Nat) : ℚ) ≤ 1 := by
      rw [div_le_one (by exact_mod_cast Nat.pos_of_ne_zero hm)]
      exact_mod_cast commonRunLen_le_min a b
    linarith
  · have h2 : 0 ≤ (commonRunLen a b : ℚ) / ((min a.length b.length : Nat) : ℚ) := by
      positivity
    linarith

theorem prefix_match_self {α : Type} [DecidableEq α] (a : List α) (ha : a ≠ []) :
    prefix_match a a = some 0 := by
  have hm : ¬ min a.length a.length = 0 := by
    rw [Nat.min_eq_zero_iff, List.length_eq_zero]
    rintro (h | h) <;> exact ha h
  rw [prefix_match, if_neg hm, commonRunLen_self, min_self]
  have hz : (a.length : ℚ) ≠ 0 := by
    exact_mod_cast fun h => ha (List.length_eq_zero.mp h)
  rw [div_self hz]
  norm_num

theorem set_distance_symm (a b : Finset (List Char)) :
    set_distance a b = set_distance b a := by
  rw [set_distance, set_distance, Finset.union_comm, Finset.inter_comm]

theorem set_distance_self (a : Finset (List Char)) : set_distance a a = 0 := by
  rw [set_distance, Finset.union_self, Finset.inter_self]
  by_cases h : a.card = 0
  · rw [if_pos h]
  · rw [if_neg h, div_self (by exact_mod_cast h)]
    norm_num

theorem set_distance_nonneg (a b : Finset (List Char)) : 0 ≤ set_distance a b := by
  rw [set_distance]
  by_cases h : (a ∪ b).card = 0
  · rw [if_pos h]
  · rw [if_neg h]
    have h1 : ((a ∩ b).card : ℚ) / ((a ∪ b).card : ℚ) ≤ 1 := by
      rw [div_le_one (by exact_mod_cast Nat.pos_of_ne_zero h)]
      exact_mod_cast Finset.card_le_card Finset.inter_subset_union
    linarith

theorem set_distance_le_one (a b : Finset (List Char)) : set_distance a b ≤ 1 := by
  rw [set_distance]
  by_cases h : (a ∪ b).card = 0
  · rw [if_pos h]; norm_num
  · rw [if_neg h]
    have h2 : 0 ≤ ((a ∩ b).card : ℚ) / ((a ∪ b).card : ℚ) := by positivity
    linarith

theorem year_distance_symm (a b : Paper) : year_distance a b = year_distance b a := by
  rw [year_distance, year_distance]
  have : (a.year - b.year).natAbs = (b.year - a.year).natAbs := by omega
  rw [this]

theorem year_distance_self (a : Paper) : year_distance a a = 0 := by
  rw [year_distance]
  simp

theorem year_distance_nonneg (a b : Paper) : 0 ≤ year_distance a b := by
  rw [year_distance]; positivity

theorem year_distance_le_one (a b : Paper) : year_distance a b ≤ 1 := by
  rw [year_distance, div_le_one (by positivity)]
  have h : ((min (a.year - b.year).natAbs 10 : Nat) : ℚ) ≤ 10 := by
    exact_mod_cast min_le_right _ 10
  nlinarith [h, show (0 : ℚ) ≤ ((min (a.year - b.year).natAbs 10 : Nat) : ℚ) by positivity]

theorem number_distance_symm (a b : Paper) : number_distance a b = number_distance b a := by
  rw [number_distance, number_distance]
  by_cases h1 : a.number = none ∧ b.number = none
  · have h1' : b.number = none ∧ a.number = none := ⟨h1.2, h1.1⟩
    rw [if_pos h1, if_pos h1']
  · have h1' : ¬ (b.number = none ∧ a.number = none) := fun hh => h1 ⟨hh.2, hh.1⟩
    rw [if_neg h1, if_neg h1']
    by_cases h2 : a.number = b.number
    · have h2' : b.number = a.number := h2.symm
      rw [if_pos h2, if_pos h2']
    · have h2' : ¬ b.number = a.number := fun hh => h2 hh.symm
      rw [if_neg h2, if_neg h2']

theorem number_distance_self (a : Paper) : number_distance a a = 0 := by
  rw [number_distance]
  by_cases h1 : a.number = none ∧ a.number = none
  · rw [if_pos h1]
  · rw [if_neg h1, if_pos rfl]

theorem number_distance_nonneg (a b : Paper) : 0 ≤ number_distance a b := by
  rw [number_distance]
  split_ifs <;> norm_num

theorem number_distance_le_one (a b : Paper) : number_distance a b ≤ 1 := by
  rw [number_distance]
  split_ifs <;> norm_num

theorem natStr_ne_nil (n : Nat) : natStr n ≠ [] := by
  rw [natStr]
  by_cases h : n < 10 <;> simp [toDecAux, h]

theorem intStr_ne_nil (i : Int) : intStr i ≠ [] := by
  rw [intStr]
  by_cases h : i < 0 <;> simp [h, natStr_ne_nil]

theorem bibtexStr_ne_nil (k : BibtexKey) : k.str ≠ [] := by
  simp [BibtexKey.str, List.append_eq_nil, intStr_ne_nil k.year]

theorem bibtex_distance_spec (a b : Paper) :
    ∃ v, bibtex_distance a b = some v ∧ bibtex_distance b a = some v ∧ 0 ≤ v ∧ v ≤ 1 := by
  obtain ⟨p, hp, hp0, hp1⟩ :=
    prefix_match_some a.bibtex.str b.bibtex.str (bibtexStr_ne_nil _) (bibtexStr_ne_nil _)
  refine ⟨min (scaled_lev a.bibtex.str b.bibtex.str) p, ?_, ?_, ?_, ?_⟩
  · rw [bibtex_distance, hp]; rfl
  · rw [bibtex_distance, prefix_match_symm b.bibtex.str a.bibtex.str, hp,
      scaled_lev_symm b.bibtex.str a.bibtex.str]
    rfl
  · exact le_min (scaled_lev_nonneg _ _) hp0
  · exact le_trans (min_le_right _ _) hp1

theorem title_distance_spec (a b : Paper) (hta : a.title ≠ []) (htb : b.title ≠ []) :
    ∃ v, title_distance a b = some v ∧ title_distance b a = some v ∧ 0 ≤ v ∧ v ≤ 1 := by
  obtain ⟨p, hp, hp0, hp1⟩ := prefix_match_some a.title b.title hta htb
  refine ⟨min (scaled_lev (normalizeText a.title) (normalizeText b.title)) p, ?_, ?_, ?_, ?_⟩
  · rw [title_distance, hp]; rfl
  · rw [title_distance, prefix_match_symm b.title a.title, hp,
      scaled_lev_symm (normalizeText b.title) (normalizeText a.title)]
    rfl
  · exact le_min (scaled_lev_nonneg _ _) hp0
  · exact le_trans (min_le_right _ _) hp1

theorem author_distance_spec (a b : Paper)
    (ha : a.authors.filter (fun x => ¬ x = "etAl".toList) ≠ [])
    (hb : b.authors.filter (fun x => ¬ x = "etAl".toList) ≠ []) :
    ∃ v, author_distance a b = some v ∧ author_distance b a = some v ∧ 0 ≤ v ∧ v ≤ 1 := by
  obtain ⟨p, hp, hp0, hp1⟩ := prefix_match_some _ _ ha hb
  have hee : (if (b.authors.any (fun x => x = "etAl".toList))
        = (a.authors.any (fun x => x = "etAl".toList)) then (0 : ℚ) else 1)
      = (if (a.authors.any (fun x => x = "etAl".toList))
        = (b.authors.any (fun x => x = "etAl".toList)) then (0 : ℚ) else 1) := by
    by_cases h : (a.authors.any (fun x => x = "etAl".toList))
        = (b.authors.any (fun x => x = "etAl".toList))
    · rw [if_pos h, if_pos h.symm]
    · have h' : ¬ (b.authors.any (fun x => x = "etAl".toList))
          = (a.authors.any (fun x => x = "etAl".toList)) := fun hh => h hh.symm
      rw [if_neg h, if_neg h']
  have he0 : 0 ≤ (if (a.authors.any (fun x => x = "etAl".toList))
      = (b.authors.any (fun x => x = "etAl".toList)) then (0 : ℚ) else 1) := by
    split_ifs <;> norm_num
  have he1 : (if (a.authors.any (fun x => x = "etAl".toList))
      = (b.authors.any (fun x => x = "etAl".toList)) then (0 : ℚ) else 1) ≤ 1 := by
    split_ifs <;> norm_num
  have hs0 := set_distance_nonneg
    (a.authors.filter (fun x => ¬ x = "etAl".toList)).toFinset
    (b.authors.filter (fun x => ¬ x = "etAl".toList)).toFinset
  have hs1 := set_distance_le_one
    (a.authors.filter (fun x => ¬ x = "etAl".toList)).toFinset
    (b.authors.filter (fun x => ¬ x = "etAl".toList)).toFinset
  refine ⟨((if (a.authors.any (fun x => x = "etAl".toList))
      = (b.authors.any (fun x => x = "etAl".toList)) then (0 : ℚ) else 1) + 5 * p
      + 2 * set_distance (a.authors.filter (fun x => ¬ x = "etAl".toList)).toFinset
        (b.authors.filter (fun x => ¬ x = "etAl".toList)).toFinset) / (1 + 5 + 2),
      ?_, ?_, ?_, ?_⟩
  · simp only [author_distance]
    rw [hp]
    simp only [Option.map_some']
  · simp only [author_distance]
    rw [prefix_match_symm _ (a.authors.filter (fun x => ¬ x = "etAl".toList)), hp]
    simp only [Option.map_some']
    rw [hee, set_distance_symm]
  · apply div_nonneg _ (by norm_num)
    linarith
  · rw [div_le_one (by norm_num)]
    linarith

theorem arxiv_distance_spec (a b : Paper)
    (hx : (a.arxiv = none ∧ b.arxiv = none)
      ∨ (∃ u v, a.arxiv = some u ∧ b.arxiv = some v ∧ u ≠ [] ∧ v ≠ [])) :
    ∃ w, arxiv_distance a b = some w ∧ arxiv_distance b a = some w ∧ 0 ≤ w ∧ w ≤ 1 := by
  rcases hx with ⟨h1, h2⟩ | ⟨u, v, h1, h2, hu, hv⟩
  · exact ⟨0, by simp [arxiv_distance, h1, h2], by simp [arxiv_distance, h1, h2],
      le_refl 0, by norm_num⟩
  · obtain ⟨p, hp, hp0, hp1⟩ := prefix_match_some u v hu hv
    refine ⟨p, ?_, ?_, hp0, hp1⟩
    · simp only [arxiv_distance, h1, h2, pyStrOpt]
      exact hp
    · simp only [arxiv_distance, h1, h2, pyStrOpt]
      rw [prefix_match_symm v u]
      exact hp

theorem doi_distance_spec (a b : Paper)
    (hd : (a.doi = none ∧ b.doi = none)
      ∨ (∃ u v, a.doi = some u ∧ b.doi = some v ∧ u ≠ [] ∧ v ≠ [])) :
    ∃ w, doi_distance a b = some w ∧ doi_distance b a = some w ∧ 0 ≤ w ∧ w ≤ 1 := by
  rcases hd with ⟨h1, h2⟩ | ⟨u, v, h1, h2, hu, hv⟩
  · exact ⟨0, by simp [doi_distance, h1, h2], by simp [doi_distance, h1, h2],
      le_refl 0, by norm_num⟩
  · obtain ⟨p, hp, hp0, hp1⟩ := prefix_match_some u v hu hv
    refine ⟨p, ?_, ?_, hp0, hp1⟩
    · simp only [doi_distance, h1, h2, pyStrOpt]
      exact hp
    · simp only [doi_distance, h1, h2, pyStrOpt]
      rw [prefix_match_symm v u]
      exact hp

theorem tag_distance_symm (a b : Paper) : tag_distance a b = tag_distance b a := by
  rw [tag_distance, tag_distance, set_distance_symm]

theorem pub_type_distance_symm (a b : Paper) : pub_type_distance a b = pub_type_distance b a := by
  rw [pub_type_distance, pub_type_distance, set_distance_symm]

theorem bibtex_distance_self (a : Paper) : bibtex_distance a a = some 0 := by
  rw [bibtex_distance, prefix_match_self _ (bibtexStr_ne_nil _)]
  simp [scaled_lev_self]

theorem title_distance_self (a : Paper) (hta : a.title ≠ []) : title_distance a a = some 0 := by
  rw [title_distance, prefix_match_self _ hta]
  simp [scaled_lev_self]

theorem author_distance_self (a : Paper)
    (ha : a.authors.filter (fun x => ¬ x = "etAl".toList) ≠ []) :
    author_distance a a = some 0 := by
  rw [author_distance, prefix_match_self _ ha]
  simp [set_distance_self]

theorem arxiv_distance_self (a : Paper)
    (hx : a.arxiv = none ∨ ∃ u, a.arxiv = some u ∧ u ≠ []) :
    arxiv_distance a a = some 0 := by
  rcases hx with h | ⟨u, h, hu⟩
  · simp [arxiv_distance, h]
  · simp only [arxiv_distance, h, pyStrOpt]
    exact prefix_match_self u hu

theorem doi_distance_self (a : Paper)
    (hd : a.doi = none ∨ ∃ u, a.doi = some u ∧ u ≠ []) :
    doi_distance a a = some 0 := by
  rcases hd with h | ⟨u, h, hu⟩
  · simp [doi_distance, h]
  · simp only [doi_distance, h, pyStrOpt]
    exact prefix_match_self u hu

theorem tag_distance_self (a : Paper) : tag_distance a a = 0 := by
  rw [tag_distance, set_distance_self]

theorem pub_type_distance_self (a : Paper) : pub_type_distance a a = 0 := by
  rw [pub_type_distance, set_distance_self]

/-- Claim C2 (amended): `paper_distance` is defined, symmetric, bounded by
[0,1] and zero on the diagonal, provided both titles are nonempty, both
non-etAl author lists are nonempty, and the arxiv and doi fields are either
both absent or both present with nonempty values.  Outside these conditions
the code raises `ZeroDivisionError`, or compares an id against the literal
text `"None"` and loses symmetry. -/
theorem paper_distance_props (a b : Paper)
    (hta : a.title ≠ []) (htb : b.title ≠ [])
    (haa : a.authors.filter (fun x => ¬ x = "etAl".toList) ≠ [])
    (hba : b.authors.filter (fun x => ¬ x = "etAl".toList) ≠ [])
    (hx : (a.arxiv = none ∧ b.arxiv = none)
      ∨ (∃ u v, a.arxiv = some u ∧ b.arxiv = some v ∧ u ≠ [] ∧ v ≠ []))
    (hd : (a.doi = none ∧ b.doi = none)
      ∨ (∃ u v, a.doi = some u ∧ b.doi = some v ∧ u ≠ [] ∧ v ≠ [])) :
    (∃ d, paper_distance a b = some d ∧ paper_distance b a = some d ∧ 0 ≤ d ∧ d ≤ 1)
    ∧ paper_distance a a = some 0 := by
  constructor
  · obtain ⟨bd, hbd1, hbd2, hbd0, hbdu⟩ := bibtex_distance_spec a b
    obtain ⟨td, htd1, htd2, htd0, htdu⟩ := title_distance_spec a b hta htb
    obtain ⟨ad, had1, had2, had0, hadu⟩ := author_distance_spec a b haa hba
    obtain ⟨xd, hxd1, hxd2, hxd0, hxdu⟩ := arxiv_distance_spec a b hx
    obtain ⟨dd, hdd1, hdd2, hdd0, hddu⟩ := doi_distance_spec a b hd
    have hy0 := year_distance_nonneg a b
    have hy1 := year_distance_le_one a b
    have hpt0 : 0 ≤ pub_type_distance a b := by
      rw [pub_type_distance]; exact set_distance_nonneg _ _
    have hpt1 : pub_type_distance a b ≤ 1 := by
      rw [pub_type_distance]; exact set_distance_le_one _ _
    have htg0 : 0 ≤ tag_distance a b := by
      rw [tag_distance]; exact set_distance_nonneg _ _
    have htg1 : tag_distance a b ≤ 1 := by
      rw [tag_distance]; exact set_distance_le_one _ _
    have hn0 := number_distance_nonneg a b
    have hn1 := number_distance_le_one a b
    refine ⟨(1 * bd + 3 * td + 2 * ad + 1 * year_distance a b
      + (1 / 2) * pub_type_distance a b + 1 * tag_distance a b
      + (1 / 2) * number_distance a b + (1 / 2) * xd + (1 / 2) * dd)
      / (1 + 3 + 2 + 1 + 1 / 2 + 1 + 1 / 2 + 1 / 2 + 1 / 2), ?_, ?_, ?_, ?_⟩
    · rw [paper_distance, hbd1, htd1, had1, hxd1, hdd1]
    · rw [paper_distance, hbd2, htd2, had2, hxd2, hdd2, year_distance_symm b a,
        pub_type_distance_symm b a, tag_distance_symm b a, number_distance_symm b a]
    · apply div_nonneg _ (by norm_num)
      linarith
    · rw [div_le_one (by norm_num)]
      linarith
  · have hxa : a.arxiv = none ∨ ∃ u, a.arxiv = some u ∧ u ≠ [] := by
      rcases hx with ⟨h1, _⟩ | ⟨u, v, h1, _, hu, _⟩
      · exact Or.inl h1
      · exact Or.inr ⟨u, h1, hu⟩
    have hda : a.doi = none ∨ ∃ u, a.doi = some u ∧ u ≠ [] := by
      rcases hd with ⟨h1, _⟩ | ⟨u, v, h1, _, hu, _⟩
      · exact Or.inl h1
      · exact Or.inr ⟨u, h1, hu⟩
    rw [paper_distance, bibtex_distance_self a, title_distance_self a hta,
      author_distance_self a haa, arxiv_distance_self a hxa, doi_distance_self a hda,
      year_distance_self, tag_distance_self, pub_type_distance_self, number_distance_self]
    norm_num


/-- Claim C2 counterexample: for two papers that differ only in that exactly
one of them has an arxiv id, `paper_distance` is not symmetric: the None side
scores 0.5 while the other side runs `prefix_match` against the text
`"None"` and scores 1.0. -/
theorem paper_distance_symm_cex :
    paper_distance cexPaperNoArxiv cexPaperWithArxiv
      ≠ paper_distance cexPaperWithArxiv cexPaperNoArxiv := by
  have hbibs : cexPaperNoArxiv.bibtex.str = "a2000b".toList := by decide
  have hbibs2 : cexPaperWithArxiv.bibtex.str = "a2000b".toList := by decide
  have hbib1 : bibtex_distance cexPaperNoArxiv cexPaperWithArxiv = some 0 := by
    rw [bibtex_distance, hbibs, hbibs2, prefix_match_self _ (by decide),
      Option.map_some', scaled_lev_self, min_self]
  have hbib2 : bibtex_distance cexPaperWithArxiv cexPaperNoArxiv = some 0 := by
    rw [bibtex_distance, hbibs, hbibs2, prefix_match_self _ (by decide),
      Option.map_some', scaled_lev_self, min_self]
  have ht1 : cexPaperNoArxiv.title = "t".toList := by decide
  have ht2 : cexPaperWithArxiv.title = "t".toList := by decide
  have htt1 : title_distance cexPaperNoArxiv cexPaperWithArxiv = some 0 := by
    rw [title_distance, ht1, ht2, prefix_match_self _ (by decide),
      Option.map_some', scaled_lev_self, min_self]
  have htt2 : title_distance cexPaperWithArxiv cexPaperNoArxiv = some 0 := by
    rw [title_distance, ht2, ht1, prefix_match_self _ (by decide),
      Option.map_some', scaled_lev_self, min_self]
  have ha1 : cexPaperNoArxiv.authors = ["x".toList] := by decide
  have ha2 : cexPaperWithArxiv.authors = ["x".toList] := by decide
  have hau1 : author_distance cexPaperNoArxiv cexPaperWithArxiv = some 0 := by
    simp only [author_distance, ha1, ha2]
    rw [prefix_match_self _ (by decide), Option.map_some', set_distance_self]
    norm_num
  have hau2 : author_distance cexPaperWithArxiv cexPaperNoArxiv = some 0 := by
    simp only [author_distance, ha1, ha2]
    rw [prefix_match_self _ (by decide), Option.map_some', set_distance_self]
    norm_num
  have hax1 : arxiv_distance cexPaperNoArxiv cexPaperWithArxiv = some (1 / 2) := by
    simp [arxiv_distance, cexPaperNoArxiv, cexPaperWithArxiv]
  have hax2 : arxiv_distance cexPaperWithArxiv cexPaperNoArxiv = some 1 := by
    have h1 : cexPaperNoArxiv.arxiv = none := by decide
    have h2 : cexPaperWithArxiv.arxiv = some "2004".toList := by decide
    have hc : commonRunLen "2004".toList "None".toList = 0 := by decide
    simp only [arxiv_distance, h1, h2, pyStrOpt]
    rw [prefix_match, if_neg (by decide), hc]
    norm_num
  have hdo1 : doi_distance cexPaperNoArxiv cexPaperWithArxiv = some 0 := by
    simp [doi_distance, cexPaperNoArxiv, cexPaperWithArxiv]
  have hdo2 : doi_distance cexPaperWithArxiv cexPaperNoArxiv = some 0 := by
    simp [doi_distance, cexPaperNoArxiv, cexPaperWithArxiv]
  have hyz1 : year_distance cexPaperNoArxiv cexPaperWithArxiv = 0 := by
    rw [year_distance]
    norm_num [cexPaperNoArxiv, cexPaperWithArxiv]
  have hyz2 : year_distance cexPaperWithArxiv cexPaperNoArxiv = 0 := by
    rw [year_distance]
    norm_num [cexPaperNoArxiv, cexPaperWithArxiv]
  have hp1 : cexPaperNoArxiv.pub_type = [] := by decide
  have hp2 : cexPaperWithArxiv.pub_type = [] := by decide
  have hpt1 : pub_type_distance cexPaperNoArxiv cexPaperWithArxiv = 0 := by
    rw [pub_type_distance, hp1, hp2, set_distance_self]
  have hpt2 : pub_type_distance cexPaperWithArxiv cexPaperNoArxiv = 0 := by
    rw [pub_type_distance, hp2, hp1, set_distance_self]
  have hg1 : cexPaperNoArxiv.tags = [] := by decide
  have hg2 : cexPaperWithArxiv.tags = [] := by decide
  have htg1 : tag_distance cexPaperNoArxiv cexPaperWithArxiv = 0 := by
    rw [tag_distance, hg1, hg2, set_distance_self]
  have htg2 : tag_distance cexPaperWithArxiv cexPaperNoArxiv = 0 := by
    rw [tag_distance, hg2, hg1, set_distance_self]
  have hn1 : cexPaperNoArxiv.number = none := by decide
  have hn2 : cexPaperWithArxiv.number = none := by decide
  have hnm1 : number_distance cexPaperNoArxiv cexPaperWithArxiv = 0 := by
    rw [number_distance, hn1, hn2, if_pos ⟨rfl, rfl⟩]
  have hnm2 : number_distance cexPaperWithArxiv cexPaperNoArxiv = 0 := by
    rw [number_distance, hn2, hn1, if_pos ⟨rfl, rfl⟩]
  have hfwd : paper_distance cexPaperNoArxiv cexPaperWithArxiv = some (1 / 40) := by
    rw [paper_distance, hbib1, htt1, hau1, hax1, hdo1, hyz1, hpt1, htg1, hnm1]
    norm_num
  have hbwd : paper_distance cexPaperWithArxiv cexPaperNoArxiv = some (1 / 20) := by
    rw [paper_distance, hbib2, htt2, hau2, hax2, hdo2, hyz2, hpt2, htg2, hnm2]
    norm_num
  rw [hfwd, hbwd]
  intro h
  have h2 := Option.some.inj h
  norm_num at h2

/-- Witness for the amended distance properties at a concrete paper. -/
theorem paper_distance_props_witness :
    (∃ d, paper_distance cexPaperNoArxiv cexPaperNoArxiv = some d
      ∧ paper_distance cexPaperNoArxiv cexPaperNoArxiv = some d ∧ 0 ≤ d ∧ d ≤ 1)
    ∧ paper_distance cexPaperNoArxiv cexPaperNoArxiv = some 0 :=
  paper_distance_props cexPaperNoArxiv cexPaperNoArxiv (by decide) (by decide)
    (by decide) (by decide) (Or.inl ⟨by decide, by decide⟩) (Or.inl ⟨by decide, by decide⟩)

/-- Every run of `parseAux` ends in exactly one of the two result shapes:
a parsed paper, or a `ParseError` carrying the input path. -/
theorem parseAux_shape (fp : List Char) (tags : List (List Char)) (name : List Char) :
    (∃ p, parseAux fp tags name = (some p, none))
    ∨ (∃ r, parseAux fp tags name = (none, some ⟨fp, r⟩)) := by
  rcases hsplit : pySplit SEPARATOR name with _ | ⟨a, _ | ⟨b, _ | ⟨c, t⟩⟩⟩
  · right
    exact ⟨reasonMissingSep, by simp only [parseAux, hsplit]⟩
  · right
    exact ⟨reasonMissingSep, by simp only [parseAux, hsplit]⟩
  · simp only [parseAux, hsplit]
    split
    · exact Or.inr ⟨reasonNoAuthors, rfl⟩
    · split
      · exact Or.inr ⟨_, rfl⟩
      · split
        · exact Or.inr ⟨reasonNoYear, rfl⟩
        · split
          · exact Or.inr ⟨_, rfl⟩
          · exact Or.inl ⟨_, rfl⟩
  · right
    exact ⟨reasonMissingSep, by simp only [parseAux, hsplit]⟩

/-- Claim C4: for every path and root, `parse` returns a pair with exactly
one non-null component, and any `ParseError` carries the offending path.
(The embedding is total: every Python-level exception inside `parse` is
either caught or impossible, so no exception escapes.) -/
theorem parse_exactly_one (fp root : List Char) :
    ((parse fp root).1.isSome ↔ (parse fp root).2 = none)
    ∧ (∀ e, (parse fp root).2 = some e → e.path = fp) := by
  have h : parse fp root = parseAux fp (tagsOf fp root) (fileNameOf fp) := rfl
  rw [h]
  rcases parseAux_shape fp (tagsOf fp root) (fileNameOf fp) with ⟨p, hp⟩ | ⟨r, hr⟩
  · rw [hp]
    exact ⟨by simp, by simp⟩
  · rw [hr]
    constructor
    · simp
    · intro e he
      rw [← Option.some.inj he]

/-- Witness: the error for a concrete separator-less path carries its path. -/
theorem parse_exactly_one_witness :
    ParseError.path ⟨"r/x.pdf".toList, reasonMissingSep⟩ = "r/x.pdf".toList :=
  (parse_exactly_one "r/x.pdf".toList "r".toList).2
    ⟨"r/x.pdf".toList, reasonMissingSep⟩ (by decide)

/-- A found first-occurrence index is a match, and the least one. -/
theorem firstSepIdx_spec (sep : List Char) (hsep : sep ≠ []) :
    ∀ (s : List Char) (k : Nat), firstSepIdx sep s = some k →
      sep.isPrefixOf (s.drop k) = true
        ∧ ∀ j, j < k → sep.isPrefixOf (s.drop j) = false := by
  intro s
  induction s with
  | nil =>
    intro k h
    obtain ⟨c, cs, hc⟩ := List.exists_cons_of_ne_nil hsep
    rw [firstSepIdx, hc] at h
    simp [List.isPrefixOf] at h
  | cons c rest ih =>
    intro k h
    rw [firstSepIdx] at h
    by_cases hpre : sep.isPrefixOf (c :: rest) = true
    · rw [if_pos hpre] at h
      have hk : k = 0 := (Option.some.inj h).symm
      subst hk
      exact ⟨hpre, fun j hj => absurd hj (by omega)⟩
    · rw [if_neg hpre] at h
      rw [Option.map_eq_some'] at h
      obtain ⟨k', hk', hkk⟩ := h
      obtain ⟨h1, h2⟩ := ih k' hk'
      subst hkk
      refine ⟨h1, ?_⟩
      intro j hj
      cases j with
      | zero =>
        simp only [List.drop_zero]
        exact Bool.not_eq_true _ ▸ (by revert hpre; cases sep.isPrefixOf (c :: rest) <;> simp)
      | succ j' => exact h2 j' (by omega)

/-- When no occurrence is found, no suffix starts with the separator. -/
theorem firstSepIdx_none (sep : List Char) (hsep : sep ≠ []) :
    ∀ (s : List Char), firstSepIdx sep s = none →
      ∀ j, sep.isPrefixOf (s.drop j) = false := by
  intro s
  induction s with
  | nil =>
    intro _ j
    obtain ⟨c, cs, hc⟩ := List.exists_cons_of_ne_nil hsep
    rw [List.drop_nil, hc]
    rfl
  | cons c rest ih =>
    intro h j
    rw [firstSepIdx] at h
    by_cases hpre : sep.isPrefixOf (c :: rest) = true
    · rw [if_pos hpre] at h
      exact absurd h (by simp)
    · rw [if_neg hpre] at h
      rw [Option.map_eq_none'] at h
      cases j with
      | zero =>
        simp only [List.drop_zero]
        revert hpre; cases sep.isPrefixOf (c :: rest) <;> simp
      | succ j' => exact ih h j'

/-- The split worker never returns the empty list. -/
theorem pySplitAux_ne_nil (sep : List Char) :
    ∀ (f : Nat) (s : List Char), pySplitAux sep f s ≠ [] := by
  intro f s
  cases f with
  | zero => rw [pySplitAux]; simp
  | succ f =>
    rw [pySplitAux]
    rcases hf : firstSepIdx sep s with _ | k <;> simp [hf]

/-- A one-part split result is the whole remaining input. -/
theorem pySplitAux_singleton (sep : List Char) :
    ∀ (f : Nat) (s b : List Char), pySplitAux sep f s = [b] → b = s := by
  intro f s b h
  cases f with
  | zero =>
    rw [pySplitAux] at h
    exact (List.cons.inj h).1.symm
  | succ f =>
    rw [pySplitAux] at h
    rcases hf : firstSepIdx sep s with _ | k
    · rw [hf] at h
      exact (List.cons.inj h).1.symm
    · rw [hf] at h
      exact absurd (List.cons.inj h).2 (pySplitAux_ne_nil sep f _)

/-- A two-part split identifies the first occurrence of the separator. -/
theorem pySplitAux_two (sep : List Char) (f : Nat) (s a b : List Char)
    (h : pySplitAux sep f s = [a, b]) :
    ∃ k, firstSepIdx sep s = some k ∧ a = s.take k ∧ b = s.drop (k + sep.length) := by
  cases f with
  | zero =>
    rw [pySplitAux] at h
    exact absurd (congrArg List.length h) (by simp)
  | succ f =>
    rw [pySplitAux] at h
    rcases hf : firstSepIdx sep s with _ | k
    · rw [hf] at h
      exact absurd (congrArg List.length h) (by simp)
    · rw [hf] at h
      refine ⟨k, rfl, (List.cons.inj h).1.symm, ?_⟩
      have h2 := (List.cons.inj h).2
      exact (pySplitAux_singleton sep f _ b h2.symm.symm).symm ▸ rfl

/-- Python `split` into exactly two parts: the separator occurs at the split
point and nowhere earlier. -/
theorem pySplit_two (sep : List Char) (hsep : sep ≠ []) (s a b : List Char)
    (h : pySplit sep s = [a, b]) :
    s = a ++ sep ++ b ∧ ∀ j, j < a.length → sep.isPrefixOf (s.drop j) = false := by
  obtain ⟨k, hk, ha, hb⟩ := pySplitAux_two sep (s.length + 1) s a b h
  obtain ⟨hpre, hmin⟩ := firstSepIdx_spec sep hsep s k hk
  rw [List.isPrefixOf_iff_prefix] at hpre
  obtain ⟨t, ht⟩ := hpre
  have hklen : k ≤ s.length := by
    by_contra hgt
    have hnil : s.drop k = [] := List.drop_eq_nil_of_le (by omega)
    rw [hnil] at ht
    obtain ⟨c, cs, hc⟩ := List.exists_cons_of_ne_nil hsep
    rw [hc] at ht
    exact absurd ht (by simp)
  have halen : a.length = k := by
    rw [ha, List.length_take]
    omega
  constructor
  · have hdrop : s.drop (k + sep.length) = t := by
      have h1 : s.drop (k + sep.length) = (s.drop k).drop sep.length := by
        rw [List.drop_drop]
      rw [h1, ← ht, List.drop_left]
    rw [ha, hb, hdrop]
    calc s = s.take k ++ s.drop k := (List.take_append_drop k s).symm
    _ = s.take k ++ (sep ++ t) := by rw [ht]
    _ = s.take k ++ sep ++ t := by rw [List.append_assoc]
  · intro j hj
    exact hmin j (by omega)

theorem nonname_reason_ne_missing (X Y : List Char) :
    "non-name author in [warning]".toList ++ X ++ Y ≠ reasonMissingSep := by
  intro h
  have h1 : ("non-name author in [warning]".toList ++ X ++ Y).head? = some 'n' := rfl
  rw [h] at h1
  exact absurd h1 (by decide)

theorem invalid_key_reason_ne_missing (X Y : List Char) :
    "invalid BibTex key [warning]".toList ++ X ++ Y ≠ reasonMissingSep := by
  intro h
  have h1 : ("invalid BibTex key [warning]".toList ++ X ++ Y).head? = some 'i' := rfl
  rw [h] at h1
  exact absurd h1 (by decide)

/-- With a two-part separator split, `parse` never reports
"missing separator". -/
theorem parseAux_two_not_missing (fp : List Char) (tags : List (List Char))
    (name a b : List Char) (hl : pySplit SEPARATOR name = [a, b]) :
    (parseAux fp tags name).2 ≠ some ⟨fp, reasonMissingSep⟩ := by
  simp only [parseAux, hl]
  split
  · intro h
    have h2 : reasonNoAuthors = reasonMissingSep :=
      congrArg (fun o => (o.getD ⟨[], []⟩).reason) h
    exact absurd h2 (by decide)
  · split
    · intro h
      have h2 := congrArg (fun o => (o.getD ⟨[], []⟩).reason) h
      exact nonname_reason_ne_missing _ _ h2
    · split
      · intro h
        have h2 : reasonNoYear = reasonMissingSep :=
          congrArg (fun o => (o.getD ⟨[], []⟩).reason) h
        exact absurd h2 (by decide)
      · split
        · intro h
          have h2 := congrArg (fun o => (o.getD ⟨[], []⟩).reason) h
          exact invalid_key_reason_ne_missing _ _ h2
        · simp

/-- Claim C8 (amended): `parse` reports the "missing separator" error exactly
when the number of non-overlapping occurrences of `"_-_"` in the filename is
not one (zero, or two or more); with exactly one occurrence the filename
splits as `authors_part ++ "_-_" ++ title_part` with `authors_part` the text
before that (first) occurrence. -/
theorem parse_separator_behavior (fp root : List Char) :
    ((parse fp root).2 = some ⟨fp, reasonMissingSep⟩
      ↔ (pySplit SEPARATOR (fileNameOf fp)).length ≠ 2)
    ∧ (∀ a b, pySplit SEPARATOR (fileNameOf fp) = [a, b] →
        fileNameOf fp = a ++ SEPARATOR ++ b
        ∧ ∀ j, j < a.length → SEPARATOR.isPrefixOf ((fileNameOf fp).drop j) = false) := by
  have hp : parse fp root = parseAux fp (tagsOf fp root) (fileNameOf fp) := rfl
  constructor
  · rw [hp]
    constructor
    · intro h hlen
      rcases hsh : pySplit SEPARATOR (fileNameOf fp) with _ | ⟨a, _ | ⟨b, _ | ⟨c, t⟩⟩⟩
      · rw [hsh] at hlen
        simp at hlen
      · rw [hsh] at hlen
        simp at hlen
      · exact parseAux_two_not_missing fp _ _ a b hsh h
      · rw [hsh] at hlen
        simp at hlen
    · intro hlen
      rcases hsh : pySplit SEPARATOR (fileNameOf fp) with _ | ⟨a, _ | ⟨b, _ | ⟨c, t⟩⟩⟩
      · simp only [parseAux, hsh]
      · simp only [parseAux, hsh]
      · rw [hsh] at hlen
        simp at hlen
      · simp only [parseAux, hsh]
  · intro a b hab
    exact pySplit_two SEPARATOR (by decide) _ a b hab

/-- Claim C8 counterexample: a filename with two separator occurrences is
claimed to split at the first occurrence, but the tuple unpacking of
`file_name.split(SEPARATOR)` raises `ValueError` and the code reports
"missing separator". -/
theorem parse_two_separators_cex :
    (pySplit SEPARATOR (fileNameOf "r/A_-_B_-_C2000x.pdf".toList)).length = 3
    ∧ parse "r/A_-_B_-_C2000x.pdf".toList "r".toList
      = (none, some ⟨"r/A_-_B_-_C2000x.pdf".toList, reasonMissingSep⟩) := by
  decide

/-- Witness: the amended separator behavior at a concrete well-formed name. -/
theorem parse_separator_behavior_witness :
    fileNameOf "r/A_-_T_2021.pdf".toList = "A".toList ++ SEPARATOR ++ "T_2021.pdf".toList :=
  ((parse_separator_behavior "r/A_-_T_2021.pdf".toList "r".toList).2
    "A".toList "T_2021.pdf".toList (by decide)).1

/-- Claim C1: the identifier extraction does not apply any remove-prefixes
reduction.  On text containing both `arXiv:2004.04002` and
`arXiv:2004.04002v2` the two distinct candidates survive, so the code drops
the id as ambiguous and returns no arXiv id, while both the claim and
test_extraction.py expect `2004.04002v2`.  (The repository's own test module
even imports a `remove_prefixes` function that search.py does not define.) -/
theorem extract_ids_two_arxiv_eval :
    ((findAllArxiv
        ("Mumble mumble stuff arXiv:2004.04002 but this version is arXiv:2004.04002v2".toList.length + 1)
        "Mumble mumble stuff arXiv:2004.04002 but this version is arXiv:2004.04002v2".toList).map
      stripArxivPre)
      = ["2004.04002".toList, "2004.04002v2".toList]
    ∧ extract_ids_from_fulltext
        "Mumble mumble stuff arXiv:2004.04002 but this version is arXiv:2004.04002v2".toList
        (some 5000)
      = (none, none) := by
  decide

/-- Claim C5: when the first `A` action's path was previously recorded as
FULLTEXT_TOO_SLOW, `_index_papers` skips the extraction branch and the local
`body` is never assigned, so building the `fields` dict raises
`UnboundLocalError` instead of indexing a document with the paper's title,
author and year. -/
theorem index_papers_too_slow_first_raises :
    index_papers_loop (fun _ => []) (fun _ => (none, none))
      ["/r/A_-_T_2021.pdf".toList]
      [⟨"A".toList, .paper ⟨"/r/A_-_T_2021.pdf".toList, ⟨"a".toList, 2021, "t".toList⟩,
        "T".toList, ["A".toList], 2021, [], [], none, none, none⟩⟩]
      = .error (.unboundLocal "body".toList) := rfl

/-- Claim C6: `all_duplicates` always raises `AttributeError` because the
`Decisions` class defines no `IGNORE_DUPLICATE` attribute, for every index
content, decision store and close-match oracle. -/
theorem all_duplicates_raises (ix : List Paper) (ds : List Decision)
    (cm : Paper → List (ℚ × Paper)) :
    all_duplicates ix ds cm = .error (.attributeError "IGNORE_DUPLICATE".toList) := rfl

theorem leListChar_total : ∀ a b : List Char, leListChar a b = true ∨ leListChar b a = true := by
  intro a
  induction a with
  | nil => intro b; exact Or.inl rfl
  | cons x xs ih =>
    intro b
    cases b with
    | nil => exact Or.inr rfl
    | cons y ys =>
      simp only [leListChar]
      by_cases h : x.toNat = y.toNat
      · rw [if_pos h, if_pos h.symm]
        exact ih ys
      · rw [if_neg h, if_neg (fun hh => h hh.symm)]
        rcases Nat.lt_or_ge x.toNat y.toNat with hlt | hge
        · exact Or.inl (decide_eq_true hlt)
        · exact Or.inr (decide_eq_true (by omega))

theorem leListChar_trans :
    ∀ a b c : List Char, leListChar a b = true → leListChar b c = true →
      leListChar a c = true := by
  intro a
  induction a with
  | nil => intro b c _ _; rfl
  | cons x xs ih =>
    intro b c hab hbc
    cases b with
    | nil => simp [leListChar] at hab
    | cons y ys =>
      cases c with
      | nil => simp [leListChar] at hbc
      | cons z zs =>
        simp only [leListChar] at hab hbc ⊢
        by_cases h1 : x.toNat = y.toNat
        · rw [if_pos h1] at hab
          by_cases h2 : y.toNat = z.toNat
          · rw [if_pos h2] at hbc
            rw [if_pos (h1.trans h2)]
            exact ih ys zs hab hbc
          · rw [if_neg h2] at hbc
            have hyz : y.toNat < z.toNat := of_decide_eq_true hbc
            rw [if_neg (by omega)]
            exact decide_eq_true (by omega)
        · rw [if_neg h1] at hab
          have hxy : x.toNat < y.toNat := of_decide_eq_true hab
          by_cases h2 : y.toNat = z.toNat
          · rw [if_pos h2] at hbc
            rw [if_neg (by omega)]
            exact decide_eq_true (by omega)
          · rw [if_neg h2] at hbc
            have hyz : y.toNat < z.toNat := of_decide_eq_true hbc
            rw [if_neg (by omega)]
            exact decide_eq_true (by omega)

instance : IsTotal (List Char) pyStrLe := ⟨leListChar_total⟩

instance : IsTrans (List Char) pyStrLe := ⟨leListChar_trans⟩

theorem flatMap_filter_nil {α : Type} (q : List Char → Bool) (grp : α → List (List Char)) :
    ∀ (L : List α), (∀ x ∈ L, (grp x).filter q = []) → (L.flatMap grp).filter q = [] := by
  intro L
  induction L with
  | nil => intro _; rfl
  | cons x L' ih =>
    intro h
    rw [List.flatMap_cons, List.filter_append, h x (List.mem_cons_self x L'),
      ih (fun y hy => h y (List.mem_cons_of_mem x hy))]
    rfl

theorem flatMap_filter_single (q : List Char → Bool) (grp : List Char → List (List Char))
    (e : List Char) (hself : (grp e).filter q = grp e) :
    ∀ (L : List (List Char)), L.Nodup → e ∈ L →
      (∀ x ∈ L, x ≠ e → (grp x).filter q = []) →
      ((L.flatMap grp).filter q) = grp e := by
  intro L
  induction L with
  | nil => intro _ h; exact absurd h (List.not_mem_nil e)
  | cons x L' ih =>
    intro hnd hmem hother
    rw [List.flatMap_cons, List.filter_append]
    by_cases hx : x = e
    · subst hx
      have hne : ∀ y ∈ L', (grp y).filter q = [] := by
        intro y hy
        have hyx : y ≠ x := by
          intro he
          subst he
          exact (List.nodup_cons.mp hnd).1 hy
        exact hother y (List.mem_cons_of_mem x hy) hyx
      rw [hself, flatMap_filter_nil q grp L' hne]
      simp
    · rw [hother x (List.mem_cons_self x L') hx, ih (List.nodup_cons.mp hnd).2
        (by rcases List.mem_cons.mp hmem with h | h; exact absurd h.symm hx; exact h)
        (fun y hy => hother y (List.mem_cons_of_mem x hy))]
      rfl

/-- Claim C9 (amended): `yield_all_paths` enumerates exactly the files whose
name matches some configured ending glob; each such file once (given that no
file matches two distinct endings); and the output is sorted lexicographically
WITHIN each ending group (groups ordered by sorted ending), not globally. -/
theorem yield_all_paths_spec (fs endings : List (List Char))
    (hnd : fs.Nodup)
    (huniq : ∀ e1 ∈ endings, ∀ e2 ∈ endings, e1 ≠ e2 → ∀ p ∈ fs,
      ¬(matchesEndingGlob e1 (fileNameOf p) = true
        ∧ matchesEndingGlob e2 (fileNameOf p) = true)) :
    (∀ p, p ∈ yield_all_paths fs endings
      ↔ p ∈ fs ∧ ∃ e ∈ endings, matchesEndingGlob e (fileNameOf p) = true)
    ∧ (yield_all_paths fs endings).Nodup
    ∧ (∀ e ∈ endings, List.Sorted pyStrLe
        ((yield_all_paths fs endings).filter
          (fun p => matchesEndingGlob e (fileNameOf p)))) := by
  have hmemgrp : ∀ (e p : List Char),
      p ∈ insertionSortLC (fs.filter (fun p => matchesEndingGlob e (fileNameOf p)))
        ↔ p ∈ fs ∧ matchesEndingGlob e (fileNameOf p) = true := by
    intro e p
    rw [insertionSortLC, List.mem_insertionSort, List.mem_filter]
  have hmemL : ∀ e, e ∈ insertionSortLC endings.dedup ↔ e ∈ endings := by
    intro e
    rw [insertionSortLC, List.mem_insertionSort, List.mem_dedup]
  refine ⟨?_, ?_, ?_⟩
  · intro p
    rw [yield_all_paths, List.mem_flatMap]
    constructor
    · rintro ⟨e, he, hp⟩
      obtain ⟨hpf, hm⟩ := (hmemgrp e p).mp hp
      exact ⟨hpf, e, (hmemL e).mp he, hm⟩
    · rintro ⟨hpf, e, he, hm⟩
      exact ⟨e, (hmemL e).mpr he, (hmemgrp e p).mpr ⟨hpf, hm⟩⟩
  · rw [yield_all_paths]
    rw [List.nodup_flatMap]
    constructor
    · intro e _
      exact ((List.perm_insertionSort pyStrLe _).nodup_iff).mpr (hnd.filter _)
    · have hLnd : (insertionSortLC endings.dedup).Nodup :=
        ((List.perm_insertionSort pyStrLe _).nodup_iff).mpr endings.nodup_dedup
      refine List.Pairwise.imp_of_mem ?_ hLnd
      intro e1 e2 he1 he2 hne
      intro p hp1 hp2
      obtain ⟨hpf, hm1⟩ := (hmemgrp e1 p).mp hp1
      obtain ⟨_, hm2⟩ := (hmemgrp e2 p).mp hp2
      exact huniq e1 ((hmemL e1).mp he1) e2 ((hmemL e2).mp he2) hne p hpf ⟨hm1, hm2⟩
  · intro e he
    rw [yield_all_paths]
    rw [flatMap_filter_single (fun p => matchesEndingGlob e (fileNameOf p))
      (fun e' => insertionSortLC (fs.filter (fun p => matchesEndingGlob e' (fileNameOf p))))
      e ?_ (insertionSortLC endings.dedup)
      (((List.perm_insertionSort pyStrLe _).nodup_iff).mpr endings.nodup_dedup)
      ((hmemL e).mpr he) ?_]
    · exact List.sorted_insertionSort pyStrLe _
    · rw [List.filter_eq_self]
      intro p hp
      exact ((hmemgrp e p).mp hp).2
    · intro x hxL hx
      rw [List.filter_eq_nil_iff]
      intro p hp
      obtain ⟨hpf, hm⟩ := (hmemgrp x p).mp hp
      intro hme
      exact huniq x ((hmemL x).mp hxL) e he hx p hpf ⟨hm, hme⟩

/-- Counterexample to claim C9 as stated: with endings {djvu, pdf} and files
`r/z.djvu`, `r/a.pdf`, the enumeration is `[r/z.djvu, r/a.pdf]` — each ending
group sorted, but NOT lexicographic over the whole output, since
`r/a.pdf < r/z.djvu`. -/
theorem yield_all_paths_order_cex :
    yield_all_paths ["r/z.djvu".toList, "r/a.pdf".toList] ["djvu".toList, "pdf".toList]
      = ["r/z.djvu".toList, "r/a.pdf".toList]
    ∧ leListChar "r/z.djvu".toList "r/a.pdf".toList = false := by
  decide

/-- Witness: the amended C9 spec at a concrete filesystem and ending set. -/
theorem yield_all_paths_spec_witness :
    (yield_all_paths ["r/a.pdf".toList, "r/z.djvu".toList]
      ["djvu".toList, "pdf".toList]).Nodup :=
  (yield_all_paths_spec ["r/a.pdf".toList, "r/z.djvu".toList]
    ["djvu".toList, "pdf".toList] (by decide) (by decide)).2.1

theorem fsGet_fsSet_self (fs : FS) (p v : List Char) : fsGet (fsSet fs p v) p = some v := by
  unfold fsGet fsSet
  rw [List.find?_cons_of_pos _ (by simp)]
  rfl

theorem find?_filter_ne (q p : List Char) (hne : q ≠ p) :
    ∀ (fs : List (List Char × List Char)),
      List.find? (fun kv => kv.1 = q) (fs.filter (fun kv => ¬ kv.1 = p))
        = List.find? (fun kv => kv.1 = q) fs := by
  intro fs
  induction fs with
  | nil => rfl
  | cons kv t ih =>
    rw [List.filter_cons]
    by_cases h1 : kv.1 = p
    · have hq : ¬ kv.1 = q := fun hq => hne (hq.symm.trans h1)
      rw [if_neg (by simp [h1]), ih, List.find?_cons_of_neg _ (by simpa using hq)]
    · rw [if_pos (by simp [h1])]
      by_cases h2 : kv.1 = q
      · rw [List.find?_cons_of_pos _ (by simpa using h2),
          List.find?_cons_of_pos _ (by simpa using h2)]
      · rw [List.find?_cons_of_neg _ (by simpa using h2),
          List.find?_cons_of_neg _ (by simpa using h2), ih]

theorem fsGet_fsSet_other (fs : FS) (p v q : List Char) (hne : q ≠ p) :
    fsGet (fsSet fs p v) q = fsGet fs q := by
  unfold fsGet fsSet
  rw [List.find?_cons_of_neg _ (by simpa using Ne.symm hne), find?_filter_ne q p hne]

theorem fsGet_fsDel_other (fs : FS) (p q : List Char) (hne : q ≠ p) :
    fsGet (fsDel fs p) q = fsGet fs q := by
  unfold fsGet fsDel
  rw [find?_filter_ne q p hne]

theorem applyOps_append_split (l1 l2 : List FsOp) :
    ∀ (fs f : FS), applyOps fs l1 = some f →
      applyOps fs (l1 ++ l2) = applyOps f l2 := by
  induction l1 with
  | nil => intro fs f h; cases h; rfl
  | cons op t ih =>
    intro fs f h
    rw [List.cons_append]
    rw [applyOps] at h ⊢
    cases hop : applyOp fs op with
    | none => rw [hop] at h; exact absurd h (by simp)
    | some fs' =>
      rw [hop] at h
      exact ih fs' f h

theorem appendOps_run (t : List Char) :
    ∀ (ls : List (List Char)) (fs : FS) (v : List Char), fsGet fs t = some v →
      ∃ fs', applyOps fs (ls.map (fun l => FsOp.append t (l ++ "\n".toList))) = some fs'
        ∧ fsGet fs' t = some (v ++ linesContent ls)
        ∧ ∀ q, q ≠ t → fsGet fs' q = fsGet fs q := by
  intro ls
  induction ls with
  | nil =>
    intro fs v hv
    exact ⟨fs, rfl, by simpa [linesContent] using hv, fun q _ => rfl⟩
  | cons l ls ih =>
    intro fs v hv
    rw [List.map_cons]
    have hstep : applyOp fs (FsOp.append t (l ++ "\n".toList))
        = some (fsSet fs t (v ++ (l ++ "\n".toList))) := by
      rw [applyOp, hv]
    obtain ⟨fs', hrun, hget, hother⟩ :=
      ih (fsSet fs t (v ++ (l ++ "\n".toList))) (v ++ (l ++ "\n".toList))
        (fsGet_fsSet_self fs t _)
    refine ⟨fs', ?_, ?_, ?_⟩
    · rw [applyOps, hstep]
      exact hrun
    · rw [hget]
      simp [linesContent]
    · intro q hq
      rw [hother q hq, fsGet_fsSet_other fs t _ q hq]

/-- Claim C7 (amended): only the decisions file is written via
temporary-file-then-`os.replace`. For `Decisions.write`, after any prefix of
its operations (a crash at any point), the target holds either its prior
content or the fully written new content. (`StoredState.write`, by contrast,
truncates the target in place — see the counterexample.) -/
theorem decisions_write_crash_safe (tmp target : List Char) (hne : target ≠ tmp)
    (lines : List (List Char)) (fs0 : FS) (n : Nat) :
    ∃ fs', applyOps fs0 ((decisionsWriteOps tmp target lines).take n) = some fs'
      ∧ (fsGet fs' target = fsGet fs0 target
         ∨ fsGet fs' target = some (linesContent lines)) := by
  cases n with
  | zero => exact ⟨fs0, rfl, Or.inl rfl⟩
  | succ m =>
    have hdef : decisionsWriteOps tmp target lines
        = FsOp.truncate tmp
          :: ((lines.map (fun l => FsOp.append tmp (l ++ "\n".toList)))
            ++ [FsOp.replace tmp target]) := rfl
    rw [hdef, List.take_succ_cons]
    have htgt1 : fsGet (fsSet fs0 tmp []) target = fsGet fs0 target :=
      fsGet_fsSet_other fs0 tmp [] target hne
    have htmp1 : fsGet (fsSet fs0 tmp []) tmp = some [] := fsGet_fsSet_self fs0 tmp []
    by_cases hm : m ≤ (lines.map (fun l => FsOp.append tmp (l ++ "\n".toList))).length
    · have htake : ((lines.map (fun l => FsOp.append tmp (l ++ "\n".toList)))
            ++ [FsOp.replace tmp target]).take m
          = (lines.take m).map (fun l => FsOp.append tmp (l ++ "\n".toList)) := by
        rw [List.take_append_of_le_length hm, List.map_take]
      obtain ⟨fs', hrun, _, hother⟩ :=
        appendOps_run tmp (lines.take m) (fsSet fs0 tmp []) [] htmp1
      refine ⟨fs', ?_, Or.inl ?_⟩
      · rw [htake]
        show applyOps (fsSet fs0 tmp []) _ = some fs'
        exact hrun
      · rw [hother target hne, htgt1]
    · have htake : ((lines.map (fun l => FsOp.append tmp (l ++ "\n".toList)))
            ++ [FsOp.replace tmp target]).take m
          = (lines.map (fun l => FsOp.append tmp (l ++ "\n".toList)))
            ++ [FsOp.replace tmp target] := by
        refine List.take_of_length_le ?_
        rw [List.length_append, List.length_map]
        simp only [List.length_singleton]
        rw [List.length_map] at hm
        omega
      rw [htake]
      obtain ⟨fs2, hrun, htmp2, _⟩ :=
        appendOps_run tmp lines (fsSet fs0 tmp []) [] htmp1
      have hsplit := applyOps_append_split
        (lines.map (fun l => FsOp.append tmp (l ++ "\n".toList)))
        [FsOp.replace tmp target] (fsSet fs0 tmp []) fs2 hrun
      have hrep : applyOp fs2 (FsOp.replace tmp target)
          = some (fsSet (fsDel fs2 tmp) target ([] ++ linesContent lines)) := by
        rw [applyOp, htmp2]
      refine ⟨fsSet (fsDel fs2 tmp) target ([] ++ linesContent lines), ?_, Or.inr ?_⟩
      · show applyOps (fsSet fs0 tmp []) _ = _
        rw [hsplit, applyOps, hrep]
        rfl
      · rw [fsGet_fsSet_self]
        simp

/-- Counterexample to claim C7 as stated: `StoredState.write` opens the TARGET
itself with mode `w`. After the truncation alone (a crash before the print
completes), the variable file holds empty content — neither the prior value
nor the new one. -/
theorem storedstate_write_crash_cex :
    (applyOps [("last_indexed_commit".toList, "abc123\n".toList)]
        ((storedStateWriteOps "last_indexed_commit".toList "def456".toList).take 1)).map
        (fun fs => fsGet fs "last_indexed_commit".toList) = some (some [])
    ∧ ([] : List Char) ≠ "abc123\n".toList
    ∧ ([] : List Char) ≠ "def456".toList ++ "\n".toList := by
  decide

/-- Witness: crash-safety of the decisions write at a concrete state, crashing
after two of the three operations. -/
theorem decisions_write_crash_safe_witness :
    ∃ fs', applyOps ([] : FS)
        ((decisionsWriteOps ".decisions.tmp".toList "decisions".toList
          ["IGNORE\ta".toList]).take 2) = some fs'
      ∧ (fsGet fs' "decisions".toList = fsGet ([] : FS) "decisions".toList
         ∨ fsGet fs' "decisions".toList = some (linesContent ["IGNORE\ta".toList])) :=
  decisions_write_crash_safe ".decisions.tmp".toList "decisions".toList (by decide)
    ["IGNORE\ta".toList] ([] : FS) 2

theorem dropWhile_eq_self_of_head (p : Char → Bool) (l : List Char) (c : Char)
    (h : l.head? = some c) (hp : p c = false) : l.dropWhile p = l := by
  cases l with
  | nil => cases h
  | cons a t =>
    cases Option.some.inj h
    rw [List.dropWhile_cons, hp]
    simp

theorem pyStrip_eq_self (s : List Char) (a b : Char)
    (hh : s.head? = some a) (hl : s.getLast? = some b)
    (ha : pyWs a = false) (hb : pyWs b = false) : pyStrip s = s := by
  unfold pyStrip
  rw [dropWhile_eq_self_of_head pyWs s a hh ha,
    dropWhile_eq_self_of_head pyWs s.reverse b (by rw [List.head?_reverse, hl]) hb,
    List.reverse_reverse]

theorem takeWhileNotWs_all (tok : List Char) (h : ∀ c ∈ tok, pyWs c = false) :
    tok.takeWhile (fun c => !pyWs c) = tok := by
  induction tok with
  | nil => rfl
  | cons c t ih =>
    rw [List.takeWhile_cons, h c (List.mem_cons_self c t)]
    simp only [Bool.not_false, if_true]
    rw [ih (fun x hx => h x (List.mem_cons_of_mem c hx))]

theorem dropWhileNotWs_all (tok : List Char) (h : ∀ c ∈ tok, pyWs c = false) :
    tok.dropWhile (fun c => !pyWs c) = [] := by
  induction tok with
  | nil => rfl
  | cons c t ih =>
    rw [List.dropWhile_cons, h c (List.mem_cons_self c t)]
    simp only [Bool.not_false, if_true]
    exact ih (fun x hx => h x (List.mem_cons_of_mem c hx))

theorem takeWhileNotWs_token (tok rest : List Char) (h : ∀ c ∈ tok, pyWs c = false) :
    (tok ++ '\t' :: rest).takeWhile (fun c => !pyWs c) = tok := by
  induction tok with
  | nil =>
    rw [List.nil_append, List.takeWhile_cons]
    simp [pyWs]
  | cons c t ih =>
    rw [List.cons_append, List.takeWhile_cons, h c (List.mem_cons_self c t)]
    simp only [Bool.not_false, if_true]
    rw [ih (fun x hx => h x (List.mem_cons_of_mem c hx))]

theorem dropWhileNotWs_token (tok rest : List Char) (h : ∀ c ∈ tok, pyWs c = false) :
    (tok ++ '\t' :: rest).dropWhile (fun c => !pyWs c) = '\t' :: rest := by
  induction tok with
  | nil =>
    rw [List.nil_append, List.dropWhile_cons]
    simp [pyWs]
  | cons c t ih =>
    rw [List.cons_append, List.dropWhile_cons, h c (List.mem_cons_self c t)]
    simp only [Bool.not_false, if_true]
    exact ih (fun x hx => h x (List.mem_cons_of_mem c hx))

theorem pySplitWsMax_nil (k : Nat) : pySplitWsMax k [] = [] := by
  cases k with
  | zero => rfl
  | succ m => rfl

theorem pySplitWsMax_tab (k : Nat) (s : List Char) :
    pySplitWsMax k ('\t' :: s) = pySplitWsMax k s := by
  have hdrop : ('\t' :: s).dropWhile pyWs = s.dropWhile pyWs := by
    rw [List.dropWhile_cons]
    simp [pyWs]
  cases k with
  | zero => rw [pySplitWsMax, pySplitWsMax]; simp only [hdrop]
  | succ m => rw [pySplitWsMax, pySplitWsMax]; simp only [hdrop]

theorem pySplitWsMax_step (k : Nat) (tok rest : List Char) (htok : tok ≠ [])
    (h : ∀ c ∈ tok, pyWs c = false) :
    pySplitWsMax (k+1) (tok ++ '\t' :: rest) = tok :: pySplitWsMax k ('\t' :: rest) := by
  obtain ⟨t0, tok', rfl⟩ := List.exists_cons_of_ne_nil htok
  have hdrop : List.dropWhile pyWs (t0 :: (tok' ++ '\t' :: rest))
      = t0 :: (tok' ++ '\t' :: rest) := by
    rw [List.dropWhile_cons, h t0 (List.mem_cons_self t0 tok')]
    simp
  rw [pySplitWsMax]
  simp only [List.cons_append, hdrop]
  rw [← List.cons_append, takeWhileNotWs_token _ rest h, dropWhileNotWs_token _ rest h]

theorem pySplitWsMax_last (k : Nat) (tok : List Char) (htok : tok ≠ [])
    (h : ∀ c ∈ tok, pyWs c = false) :
    pySplitWsMax (k+1) tok = [tok] := by
  obtain ⟨t0, tok', rfl⟩ := List.exists_cons_of_ne_nil htok
  have hdrop : (t0 :: tok').dropWhile pyWs = t0 :: tok' := by
    rw [List.dropWhile_cons, h t0 (List.mem_cons_self t0 tok')]
    simp
  rw [pySplitWsMax]
  simp only [hdrop]
  rw [takeWhileNotWs_all _ h, dropWhileNotWs_all _ h, pySplitWsMax_nil]

theorem stripSplit_line_none (rel a1 : List Char)
    (hrel : rel ≠ []) (ha1 : a1 ≠ [])
    (hr : ∀ c ∈ rel, pyWs c = false) (h1 : ∀ c ∈ a1, pyWs c = false) :
    pySplitWsMax 3 (pyStrip (decisionLine ⟨rel, a1, none⟩)) = [rel, a1] := by
  have hline : decisionLine ⟨rel, a1, none⟩ = rel ++ '\t' :: a1 := by
    rw [decisionLine, List.append_assoc]
    rfl
  rw [hline]
  obtain ⟨r0, rel', rfl⟩ := List.exists_cons_of_ne_nil hrel
  rcases List.eq_nil_or_concat a1 with rfl | ⟨A, b, rfl⟩
  · exact absurd rfl ha1
  simp only [List.concat_eq_append] at *
  have hshape : (r0 :: rel') ++ '\t' :: (A ++ [b])
      = ((r0 :: rel') ++ '\t' :: A) ++ [b] := by
    simp
  have hhead : ((r0 :: rel') ++ '\t' :: (A ++ [b])).head? = some r0 := rfl
  have hlast : ((r0 :: rel') ++ '\t' :: (A ++ [b])).getLast? = some b := by
    rw [hshape, List.getLast?_concat]
  have hb : b ∈ A ++ [b] := List.mem_append_right A (List.mem_singleton_self b)
  rw [pyStrip_eq_self _ r0 b hhead hlast (hr r0 (List.mem_cons_self r0 rel')) (h1 b hb)]
  show pySplitWsMax (2+1) ((r0 :: rel') ++ '\t' :: (A ++ [b])) = _
  rw [pySplitWsMax_step 2 (r0 :: rel') (A ++ [b]) hrel hr, pySplitWsMax_tab]
  show _ :: pySplitWsMax (1+1) (A ++ [b]) = _
  rw [pySplitWsMax_last 1 (A ++ [b]) ha1 h1]

theorem stripSplit_line_some (rel a1 a2 : List Char)
    (hrel : rel ≠ []) (ha1 : a1 ≠ []) (ha2 : a2 ≠ [])
    (hr : ∀ c ∈ rel, pyWs c = false) (h1 : ∀ c ∈ a1, pyWs c = false)
    (h2 : ∀ c ∈ a2, pyWs c = false) :
    pySplitWsMax 3 (pyStrip (decisionLine ⟨rel, a1, some a2⟩)) = [rel, a1, a2] := by
  have hline : decisionLine ⟨rel, a1, some a2⟩ = rel ++ '\t' :: (a1 ++ '\t' :: a2) := by
    simp only [decisionLine]
    rw [List.append_assoc, List.append_assoc, List.append_assoc]
    rfl
  rw [hline]
  obtain ⟨r0, rel', rfl⟩ := List.exists_cons_of_ne_nil hrel
  rcases List.eq_nil_or_concat a2 with rfl | ⟨A, b, rfl⟩
  · exact absurd rfl ha2
  simp only [List.concat_eq_append] at *
  have hshape : (r0 :: rel') ++ '\t' :: (a1 ++ '\t' :: (A ++ [b]))
      = ((r0 :: rel') ++ '\t' :: (a1 ++ '\t' :: A)) ++ [b] := by
    simp
  have hhead : ((r0 :: rel') ++ '\t' :: (a1 ++ '\t' :: (A ++ [b]))).head? = some r0 := rfl
  have hlast : ((r0 :: rel') ++ '\t' :: (a1 ++ '\t' :: (A ++ [b]))).getLast? = some b := by
    rw [hshape, List.getLast?_concat]
  have hb : b ∈ A ++ [b] := List.mem_append_right A (List.mem_singleton_self b)
  rw [pyStrip_eq_self _ r0 b hhead hlast (hr r0 (List.mem_cons_self r0 rel')) (h2 b hb)]
  show pySplitWsMax (2+1) ((r0 :: rel') ++ '\t' :: (a1 ++ '\t' :: (A ++ [b]))) = _
  rw [pySplitWsMax_step 2 (r0 :: rel') _ hrel hr, pySplitWsMax_tab]
  show _ :: pySplitWsMax (1+1) (a1 ++ '\t' :: (A ++ [b])) = _
  rw [pySplitWsMax_step 1 a1 _ ha1 h1, pySplitWsMax_tab]
  show _ :: _ :: pySplitWsMax (0+1) (A ++ [b]) = _
  rw [pySplitWsMax_last 0 (A ++ [b]) ha2 h2]

theorem validDec_spec (d : Decision) (hv : validDec d = true) :
    d.relation ≠ [] ∧ (∀ c ∈ d.relation, pyWs c = false)
    ∧ d.arg1 ≠ [] ∧ (∀ c ∈ d.arg1, pyWs c = false)
    ∧ (∀ a2, d.arg2 = some a2 → a2 ≠ [] ∧ ∀ c ∈ a2, pyWs c = false) := by
  obtain ⟨rel, a1, a2⟩ := d
  cases a2 with
  | none =>
    simp only [validDec, Bool.and_eq_true, Bool.not_eq_true', List.all_eq_true,
      List.isEmpty_eq_false] at hv
    exact ⟨hv.1.1.1, fun c hc => by simpa using hv.1.1.2 c hc,
      hv.1.2.1, fun c hc => by simpa using hv.1.2.2 c hc,
      fun a2 h => by cases h⟩
  | some a2 =>
    simp only [validDec, Bool.and_eq_true, Bool.not_eq_true', List.all_eq_true,
      List.isEmpty_eq_false] at hv
    refine ⟨hv.1.1.1, fun c hc => by simpa using hv.1.1.2 c hc,
      hv.1.2.1, fun c hc => by simpa using hv.1.2.2 c hc, ?_⟩
    intro x hx
    cases Option.some.inj hx
    exact ⟨hv.2.1, fun c hc => by simpa using hv.2.2 c hc⟩

theorem decisionsReadLines_map :
    ∀ (ds : List Decision), (∀ d ∈ ds, validDec d = true) →
      decisionsReadLines (ds.map decisionLine) = .ok ds := by
  intro ds
  induction ds with
  | nil => intro _; rfl
  | cons d ds ih =>
    intro hv
    obtain ⟨rel, a1, a2⟩ := d
    obtain ⟨hrel, hr, ha1, h1, h2⟩ :=
      validDec_spec ⟨rel, a1, a2⟩ (hv _ (List.mem_cons_self _ ds))
    have hrest := ih (fun x hx => hv x (List.mem_cons_of_mem _ hx))
    rw [List.map_cons, decisionsReadLines]
    cases a2 with
    | none =>
      rw [stripSplit_line_none rel a1 hrel ha1 hr h1, hrest]
    | some a2 =>
      obtain ⟨ha2, h2'⟩ := h2 a2 rfl
      rw [stripSplit_line_some rel a1 a2 hrel ha1 ha2 hr h1 h2', hrest]

theorem firstSepIdx_newline :
    ∀ (l rest : List Char), '\n' ∉ l →
      firstSepIdx "\n".toList (l ++ '\n' :: rest) = some l.length := by
  intro l
  induction l with
  | nil =>
    intro rest _
    rw [List.nil_append, firstSepIdx, if_pos (by simp [List.isPrefixOf])]
    rfl
  | cons c l' ih =>
    intro rest hmem
    have hc : ('\n' == c) = false := by
      simp only [beq_eq_false_iff_ne, ne_eq]
      intro h
      exact hmem (h ▸ List.mem_cons_self c _)
    rw [List.cons_append, firstSepIdx,
      if_neg (by simp [List.isPrefixOf, hc]),
      ih rest (fun h => hmem (List.mem_cons_of_mem c h))]
    rfl

theorem pySplitAux_newline_lines :
    ∀ (ls : List (List Char)) (f : Nat), (∀ l ∈ ls, '\n' ∉ l) → ls.length ≤ f →
      pySplitAux "\n".toList f ((ls.map (fun l => l ++ "\n".toList)).flatten)
        = ls ++ [[]] := by
  intro ls
  induction ls with
  | nil =>
    intro f _ _
    cases f with
    | zero => rfl
    | succ m =>
      show pySplitAux "\n".toList (m+1) [] = [[]]
      rw [pySplitAux]
      have : firstSepIdx "\n".toList [] = none := by
        rw [firstSepIdx, if_neg (by simp [List.isPrefixOf])]
      rw [this]
  | cons l ls ih =>
    intro f hmem hf
    cases f with
    | zero => exact absurd hf (by simp)
    | succ m =>
      have hshape : ((l :: ls).map (fun l => l ++ "\n".toList)).flatten
          = l ++ '\n' :: (ls.map (fun l => l ++ "\n".toList)).flatten := by
        rw [List.map_cons, List.flatten_cons, List.append_assoc]
        rfl
      rw [hshape, pySplitAux,
        firstSepIdx_newline l _ (hmem l (List.mem_cons_self l ls))]
      have htake : (l ++ '\n' :: (ls.map (fun l => l ++ "\n".toList)).flatten).take l.length
          = l := List.take_left l _
      have hdrop : (l ++ '\n' :: (ls.map (fun l => l ++ "\n".toList)).flatten).drop
            (l.length + "\n".toList.length)
          = (ls.map (fun l => l ++ "\n".toList)).flatten := by
        rw [show l ++ '\n' :: (ls.map (fun l => l ++ "\n".toList)).flatten
            = (l ++ ['\n']) ++ (ls.map (fun l => l ++ "\n".toList)).flatten from by simp]
        exact List.drop_left' (by simp)
      show List.take l.length _
          :: pySplitAux "\n".toList m (List.drop (l.length + "\n".toList.length) _)
        = _
      rw [htake, hdrop, ih m (fun x hx => hmem x (List.mem_cons_of_mem l hx))
        (Nat.le_of_succ_le_succ (by simpa using hf))]
      rfl

theorem length_lines_ge :
    ∀ (ls : List (List Char)),
      ls.length ≤ ((ls.map (fun l => l ++ "\n".toList)).flatten).length := by
  intro ls
  induction ls with
  | nil => simp
  | cons l ls ih =>
    rw [List.map_cons, List.flatten_cons, List.length_append, List.length_cons,
      List.length_append]
    have : "\n".toList.length = 1 := rfl
    omega

theorem pySplit_newline_lines (ls : List (List Char)) (h : ∀ l ∈ ls, '\n' ∉ l) :
    pySplit "\n".toList ((ls.map (fun l => l ++ "\n".toList)).flatten) = ls ++ [[]] :=
  pySplitAux_newline_lines ls _ h
    (le_trans (length_lines_ge ls) (Nat.le_succ _))

theorem decisionLine_no_newline (d : Decision) (hv : validDec d = true) :
    '\n' ∉ decisionLine d := by
  obtain ⟨rel, a1, a2⟩ := d
  obtain ⟨hrel, hr, ha1, h1, h2⟩ := validDec_spec ⟨rel, a1, a2⟩ hv
  intro hmem
  cases a2 with
  | none =>
    simp only [decisionLine] at hmem
    rcases List.mem_append.mp hmem with hmm | hm3
    · rcases List.mem_append.mp hmm with hm1 | hm2
      · exact absurd (hr '\n' hm1) (by decide)
      · exact absurd hm2 (by decide)
    · exact absurd (h1 '\n' hm3) (by decide)
  | some a2 =>
    obtain ⟨ha2, hq2⟩ := h2 a2 rfl
    simp only [decisionLine] at hmem
    rcases List.mem_append.mp hmem with hmm | hm5
    · rcases List.mem_append.mp hmm with hmm2 | hm4
      · rcases List.mem_append.mp hmm2 with hmm3 | hm3
        · rcases List.mem_append.mp hmm3 with hm1 | hm2
          · exact absurd (hr '\n' hm1) (by decide)
          · exact absurd hm2 (by decide)
        · exact absurd (h1 '\n' hm3) (by decide)
      · exact absurd hm4 (by decide)
    · exact absurd (hq2 '\n' hm5) (by decide)

/-- Claim C10 (amended): `Decisions.write` followed by `Decisions.read` yields
the sorted deduplicated decisions with fields preserved, PROVIDED every field
is nonempty and contains no whitespace, and decisions agreeing on relation and
arg1 agree on the presence of arg2 (otherwise Python's `sorted` raises
`TypeError` comparing `None` with `str`). Fields containing spaces are NOT
preserved: the whitespace-based `line.split(None, 3)` re-splits them — see the
counterexample. -/
theorem decisions_write_read_roundtrip (ds : List Decision)
    (hvalid : ∀ d ∈ ds, validDec d = true)
    (_hcmp : ∀ d1 ∈ ds, ∀ d2 ∈ ds, d1.relation = d2.relation → d1.arg1 = d2.arg1 →
      d1.arg2.isSome = d2.arg2.isSome) :
    Decisions_read (Decisions_write ds)
      = .ok (List.insertionSort decLeRel ds.dedup) := by
  have hL : ∀ d ∈ List.insertionSort decLeRel ds.dedup, validDec d = true := by
    intro d hd
    exact hvalid d (List.mem_dedup.mp ((List.mem_insertionSort decLeRel).mp hd))
  have hmm : (List.insertionSort decLeRel ds.dedup).map
        (fun d => decisionLine d ++ "\n".toList)
      = ((List.insertionSort decLeRel ds.dedup).map decisionLine).map
        (fun l => l ++ "\n".toList) := by
    rw [List.map_map]
    rfl
  rw [Decisions_read, Decisions_write, hmm, pySplit_newline_lines _ ?hnl,
    List.dropLast_concat]
  · exact decisionsReadLines_map _ hL
  case hnl =>
    intro l hl
    obtain ⟨d, hd, rfl⟩ := List.mem_map.mp hl
    exact decisionLine_no_newline d (hL d hd)

/-- Counterexample to claim C10 as stated: an `arg1` containing a space does
not round-trip — `IGNORE<tab>my file.pdf` reads back as the three-field
decision `(IGNORE, my, file.pdf)`. -/
theorem decisions_roundtrip_space_cex :
    Decisions_read (Decisions_write
        [⟨"IGNORE".toList, "my file.pdf".toList, none⟩])
      = .ok [⟨"IGNORE".toList, "my".toList, some "file.pdf".toList⟩]
    ∧ (⟨"IGNORE".toList, "my".toList, some "file.pdf".toList⟩ : Decision)
      ≠ ⟨"IGNORE".toList, "my file.pdf".toList, none⟩ :=
  ⟨rfl, by decide⟩

/-- Witness: the round-trip at a concrete decision list with a duplicate. -/
theorem decisions_write_read_roundtrip_witness :
    Decisions_read (Decisions_write
        [⟨"IGNORE".toList, "a.pdf".toList, none⟩,
         ⟨"FULLTEXT_TOO_SLOW".toList, "b.pdf".toList, none⟩,
         ⟨"IGNORE".toList, "a.pdf".toList, none⟩])
      = .ok (List.insertionSort decLeRel
          ([⟨"IGNORE".toList, "a.pdf".toList, none⟩,
            ⟨"FULLTEXT_TOO_SLOW".toList, "b.pdf".toList, none⟩,
            ⟨"IGNORE".toList, "a.pdf".toList, none⟩] : List Decision).dedup) :=
  decisions_write_read_roundtrip
    [⟨"IGNORE".toList, "a.pdf".toList, none⟩,
     ⟨"FULLTEXT_TOO_SLOW".toList, "b.pdf".toList, none⟩,
     ⟨"IGNORE".toList, "a.pdf".toList, none⟩]
    (by decide) (by decide)
